import Mathlib

/-!
Shallow embedding of the Hytopia golf minigame plugin.

Sources:
- index.ts (course stamping helpers buildRectangle and buildCircle, player join
  wiring that constructs GolfPlayerEntity with maxPower 100),
- src/entities/GolfBallEntity.ts (hit, stopBall, resetToPosition, isMoving),
- src/entities/GolfPlayerEntity.ts (turn, aiming and power-charge state machine),
- src/managers/GolfGameManager.ts (game flow, turn order, scoring, penalties).

Engine facilities (world, physics, audio, UI) are external black boxes: calls
into them are modelled as emitted commands (the impulse list of hit) or as
deterministic field updates (setPosition, setLinearVelocity), and UI or audio
calls are dropped.  JavaScript numbers are modelled as rationals; square-root
comparisons sqrt d <= r and sqrt d > r of the source are embedded as the
equivalent (for nonnegative r) comparisons d <= r * r and d > r * r.  An
uncaught runtime TypeError (the manager calls this._endGame(), a method that
does not exist on GolfGameManager; only the public endGame() exists) terminates
the single-threaded process, which is modelled by an absorbing crashed flag.

The 3000 ms result-display timer armed by _handleBallInHole is split from the
recording it follows: the collision handler itself is handleBallInHoleRecord
and the armed callback (which reads this._currentHole at fire time) is
deferredHoleStart, each its own step of the game relation, so that events
delivered inside the three second window — including a repeated ball-in-hole
— are representable.  handleBallInHole is the composite of the two for an
undisturbed window; the relation OrderlyStep models the single-delivery
discipline in which every completion takes that composite form.
-/

/-- Integer lattice point, used for the voxel course stamping helpers. -/
structure Vec3i where
  x : Int
  y : Int
  z : Int
deriving DecidableEq

/-- The list lo, lo + 1, ..., hi, the values taken by a JS loop
for (let v = lo; v <= hi; v++). -/
def intRange (lo hi : Int) : List Int :=
  (List.range (hi + 1 - lo).toNat).map (fun k => lo + Int.ofNat k)

/-- Embedding of buildRectangle (index.ts): the list of setBlock writes made by
the triple nested loop over the componentwise min and max of the two corners.
The world argument is dropped; the result is the list of (position, blockId)
writes. -/
def buildRectangle (corner1 corner2 : Vec3i) (blockId : Int) : List (Vec3i × Int) :=
  (intRange (min corner1.x corner2.x) (max corner1.x corner2.x)).flatMap (fun x =>
    (intRange (min corner1.y corner2.y) (max corner1.y corner2.y)).flatMap (fun y =>
      (intRange (min corner1.z corner2.z) (max corner1.z corner2.z)).map (fun z =>
        (⟨x, y, z⟩, blockId))))

/-- Embedding of buildCircle (index.ts): the loop runs over the enclosing
square and writes blockId at height center.y whenever the Euclidean distance
test of the source passes.  The source test is
Math.sqrt((x - cx) ** 2 + (z - cz) ** 2) <= radius, embedded squared. -/
def buildCircle (center : Vec3i) (radius : Int) (blockId : Int) : List (Vec3i × Int) :=
  (intRange (center.x - radius) (center.x + radius)).flatMap (fun x =>
    (intRange (center.z - radius) (center.z + radius)).flatMap (fun z =>
      if (x - center.x) ^ 2 + (z - center.z) ^ 2 ≤ radius ^ 2 then
        [(⟨x, center.y, z⟩, blockId)]
      else []))

/-- Rational 3-vector for positions, velocities and directions. -/
structure Vec3 where
  x : ℚ
  y : ℚ
  z : ℚ
deriving DecidableEq

/-- The zero vector. -/
def Vec3.zero : Vec3 := ⟨0, 0, 0⟩

/-- State of GolfBallEntity: the spawned flag and the rigid-body quantities the
golf code reads or writes through the engine. -/
structure GolfBallEntity where
  isSpawned : Bool
  position : Vec3
  linearVelocity : Vec3
  angularVelocity : Vec3
  ballMass : ℚ
deriving DecidableEq

namespace GolfBallEntity

/-- A freshly constructed golf ball (GolfBallEntity constructor defaults):
mass 0.045, not yet spawned. -/
def freshBall : GolfBallEntity :=
  { isSpawned := false
    position := Vec3.zero
    linearVelocity := Vec3.zero
    angularVelocity := Vec3.zero
    ballMass := 45 / 1000 }

/-- Embedding of GolfBallEntity.hit: when not spawned it warns and returns,
otherwise it applies exactly one impulse of direction * force * ballMass
componentwise.  The impulse goes to the engine, so it is returned as an
emitted-command list and the entity fields are untouched. -/
def hit (b : GolfBallEntity) (direction : Vec3) (force : ℚ) :
    GolfBallEntity × List Vec3 :=
  if !b.isSpawned then (b, [])
  else
    (b, [⟨direction.x * force * b.ballMass,
          direction.y * force * b.ballMass,
          direction.z * force * b.ballMass⟩])

/-- Embedding of GolfBallEntity.stopBall: zero the linear and angular velocity
through the engine setters; no-op when not spawned. -/
def stopBall (b : GolfBallEntity) : GolfBallEntity :=
  if !b.isSpawned then b
  else { b with linearVelocity := Vec3.zero, angularVelocity := Vec3.zero }

/-- Embedding of GolfBallEntity.resetToPosition: stop the ball, then move it;
no-op when not spawned. -/
def resetToPosition (b : GolfBallEntity) (position : Vec3) : GolfBallEntity :=
  if !b.isSpawned then b
  else { (stopBall b) with position := position }

/-- Embedding of GolfBallEntity.isMoving: the source compares
sqrt(vx^2 + vy^2 + vz^2) > 0.01; squared here. -/
def isMoving (b : GolfBallEntity) : Bool :=
  decide (b.linearVelocity.x ^ 2 + b.linearVelocity.y ^ 2 + b.linearVelocity.z ^ 2
    > 1 / 10000)

end GolfBallEntity

/-- One frame of player input as read by the golf controls tick handler:
the space, F and R keys and the camera facing direction used on release. -/
structure Input where
  sp : Bool
  f : Bool
  r : Bool
  facing : Vec3
deriving DecidableEq

/-- State of GolfPlayerEntity: the golf-specific fields.  The references
_currentBall and the spawn world are modelled as presence flags, which is all
the golf logic reads of them. -/
structure GolfPlayerEntity where
  maxPower : ℚ
  currentPower : ℚ
  isCharging : Bool
  isAiming : Bool
  hasBall : Bool
  hasWorld : Bool
  shotCount : Nat
  isPlayerTurn : Bool
deriving DecidableEq

namespace GolfPlayerEntity

/-- A golf player entity as constructed on join in index.ts: maxPower 100 and
the constructor defaults, spawned into the world before being added to the
game. -/
def freshPlayer : GolfPlayerEntity :=
  { maxPower := 100
    currentPower := 0
    isCharging := false
    isAiming := false
    hasBall := false
    hasWorld := true
    shotCount := 0
    isPlayerTurn := false }

/-- Embedding of setGolfBall: record that a ball is assigned. -/
def setGolfBall (e : GolfPlayerEntity) : GolfPlayerEntity :=
  { e with hasBall := true }

/-- Embedding of the private _startAiming: returns early without a ball,
otherwise enables aiming (camera and UI calls dropped). -/
def startAiming (e : GolfPlayerEntity) : GolfPlayerEntity :=
  if !e.hasBall then e else { e with isAiming := true }

/-- Embedding of the private _stopAiming (camera and UI calls dropped). -/
def stopAiming (e : GolfPlayerEntity) : GolfPlayerEntity :=
  { e with isAiming := false }

/-- Embedding of the private _toggleAiming. -/
def toggleAiming (e : GolfPlayerEntity) : GolfPlayerEntity :=
  if e.isAiming then stopAiming e else startAiming e

/-- Embedding of startTurn: mark the turn active, zero the shot count, then
enable aiming. -/
def startTurn (e : GolfPlayerEntity) : GolfPlayerEntity :=
  startAiming { e with isPlayerTurn := true, shotCount := 0 }

/-- Embedding of endTurn: clear turn, aiming and charging state and zero the
power. -/
def endTurn (e : GolfPlayerEntity) : GolfPlayerEntity :=
  { e with isPlayerTurn := false, isAiming := false, isCharging := false,
           currentPower := 0 }

/-- Embedding of getScore. -/
def getScore (e : GolfPlayerEntity) : Nat := e.shotCount

/-- Embedding of the private _startCharging (audio dropped). -/
def startCharging (e : GolfPlayerEntity) : GolfPlayerEntity :=
  { e with isCharging := true, currentPower := 0 }

/-- Embedding of the private _updatePower: while charging, add
maxPower / (60 * 2) and clamp at maxPower. -/
def updatePower (e : GolfPlayerEntity) : GolfPlayerEntity :=
  if !e.isCharging then e
  else { e with currentPower := min (e.currentPower + e.maxPower / (60 * 2)) e.maxPower }

/-- Embedding of the private _executeShot: guarded on charging, an assigned
ball and a world; computes force (currentPower / maxPower) * 50, hits the ball
in the camera facing direction, increments the shot count, zeroes the power
and stops aiming.  The hit command is returned as (direction, force). -/
def executeShot (facing : Vec3) (e : GolfPlayerEntity) :
    GolfPlayerEntity × Option (Vec3 × ℚ) :=
  if !e.isCharging || !e.hasBall || !e.hasWorld then (e, none)
  else
    ({ e with isCharging := false,
              shotCount := e.shotCount + 1,
              currentPower := 0,
              isAiming := false },
     some (facing, e.currentPower / e.maxPower * 50))

/-- The tail of the controls tick after the charge or release branch ran:
update the power while still charging (updatePower carries that guard
itself), then toggle aiming on the F key (the turn flag it also checks is
still set here). -/
def tickRest (inp : Input) (e : GolfPlayerEntity) : GolfPlayerEntity :=
  if inp.f then toggleAiming (updatePower e) else updatePower e

/-- Embedding of the TICK_WITH_PLAYER_INPUT handler installed by
_setupGolfControls: early return when it is not this players turn; start
charging on space while aiming, execute the shot on release while charging;
then the common tail tickRest.  The R key only resets the ball through the
engine (no entity state change), so it is covered by the ball-physics step of
the game model. -/
def golfControlsTick (inp : Input) (e : GolfPlayerEntity) :
    GolfPlayerEntity × Option (Vec3 × ℚ) :=
  if !e.isPlayerTurn then (e, none)
  else if inp.sp && !e.isCharging && e.isAiming then
    (tickRest inp (startCharging e), none)
  else if !inp.sp && e.isCharging then
    (tickRest inp (executeShot inp.facing e).1, (executeShot inp.facing e).2)
  else (tickRest inp e, none)

/-- Power bounds of one player entity: the invariant of claim C5. -/
def powerOk (e : GolfPlayerEntity) : Prop :=
  0 ≤ e.currentPower ∧ e.currentPower ≤ e.maxPower

end GolfPlayerEntity

/-- A hole of the course (GolfHole interface). -/
structure GolfHole where
  id : Nat
  name : String
  par : Nat
  teePosition : Vec3
  holePosition : Vec3
  holeRadius : ℚ
deriving DecidableEq

/-- Per-player score record (PlayerScore interface).  The sparse JS array
strokes, written only at the index of a finished hole, is a list of optional
entries; player identity is the map key player.id. -/
structure PlayerScore where
  pid : String
  golfEntity : GolfPlayerEntity
  strokes : List (Option Nat)
  totalStrokes : Nat
  currentHole : Nat
deriving DecidableEq

/-- Writing strokes[h] = v into a JS array: pad missing entries below h with
empty slots, overwrite at h. -/
def setStroke : List (Option Nat) → Nat → Nat → List (Option Nat)
  | [], 0, v => [some v]
  | [], h + 1, v => none :: setStroke [] h v
  | _ :: rest, 0, v => some v :: rest
  | a :: rest, h + 1, v => a :: setStroke rest h v

/-- Reading strokes[j] from the sparse array: none when absent. -/
def getStroke (l : List (Option Nat)) (j : Nat) : Option Nat :=
  (l[j]?).getD none

/-- Sum of the recorded per-hole strokes of a sparse strokes array. -/
def strokesSum (l : List (Option Nat)) : Nat :=
  (l.map (fun o => o.getD 0)).sum

/-- Pointwise map over the player list carrying the position, used to embed
the source loops that treat the entry at the current player index apart from
the rest. -/
def mapIdxFrom (f : Nat → PlayerScore → PlayerScore) :
    Nat → List PlayerScore → List PlayerScore
  | _, [] => []
  | k, p :: ps => f k p :: mapIdxFrom f (k + 1) ps

/-- State of GolfGameManager.  The Map of players is its insertion-ordered
value list; crashed records that the process died of an uncaught TypeError
(see the module comment). -/
structure GameState where
  players : List PlayerScore
  currentPlayerIndex : Nat
  currentHole : Nat
  gameInProgress : Bool
  holes : List GolfHole
  golfBall : Option GolfBallEntity
  crashed : Bool
deriving DecidableEq

namespace GolfGameManager

/-- Hole 1 of _setupDefaultCourse. -/
def hole1 : GolfHole :=
  { id := 1, name := "Starter Hole", par := 3,
    teePosition := ⟨-10, 2, 0⟩, holePosition := ⟨10, 2, 0⟩, holeRadius := 1 / 2 }

/-- Hole 2 of _setupDefaultCourse. -/
def hole2 : GolfHole :=
  { id := 2, name := "Dogleg Right", par := 4,
    teePosition := ⟨-15, 2, 10⟩, holePosition := ⟨15, 2, -5⟩, holeRadius := 1 / 2 }

/-- Hole 3 of _setupDefaultCourse. -/
def hole3 : GolfHole :=
  { id := 3, name := "Long Drive", par := 5,
    teePosition := ⟨0, 2, -20⟩, holePosition := ⟨0, 2, 25⟩, holeRadius := 1 / 2 }

/-- The default three-hole course set up by the constructor. -/
def defaultHoles : List GolfHole := [hole1, hole2, hole3]

/-- Manager state right after the constructor ran. -/
def initialState : GameState :=
  { players := []
    currentPlayerIndex := 0
    currentHole := 0
    gameInProgress := false
    holes := defaultHoles
    golfBall := none
    crashed := false }

/-- Embedding of _getCurrentPlayer: index into the value list of the map. -/
def getCurrentPlayer (s : GameState) : Option PlayerScore :=
  s.players[s.currentPlayerIndex]?

/-- Is the golf ball present and moving (the optional chain
this._golfBall?.isMoving() with undefined read as false). -/
def ballMoving (s : GameState) : Bool :=
  (s.golfBall.map GolfBallEntity.isMoving).getD false

/-- Per-player body of the _startPlayerTurn loop: the entry at the current
index gets the ball (when one exists) and its turn started; every other entry
gets its turn ended. -/
def startPlayerTurnF (idx : Nat) (ballSome : Bool) (j : Nat) (p : PlayerScore) :
    PlayerScore :=
  if j = idx then
    { p with golfEntity := GolfPlayerEntity.startTurn (if ballSome then GolfPlayerEntity.setGolfBall p.golfEntity else p.golfEntity) }
  else { p with golfEntity := GolfPlayerEntity.endTurn p.golfEntity }

/-- Per-player body of the endGame loop step that ends the current players
turn: only the entry at the current index changes. -/
def endTurnAtF (idx : Nat) (j : Nat) (p : PlayerScore) : PlayerScore :=
  if j = idx then { p with golfEntity := GolfPlayerEntity.endTurn p.golfEntity }
  else p

/-- Per-player body of the _handleBallInHole update: the entry at the current
index records score strokes at hole and adds it to the total. -/
def recordScoreF (idx hole score : Nat) (j : Nat) (p : PlayerScore) : PlayerScore :=
  if j = idx then
    { p with strokes := setStroke p.strokes hole score,
             totalStrokes := p.totalStrokes + score }
  else p

/-- Per-player body of the _handleWaterHazard update: the entry at the current
index gets one penalty stroke added to its entitys shot count. -/
def penaltyF (idx : Nat) (j : Nat) (p : PlayerScore) : PlayerScore :=
  if j = idx then
    { p with golfEntity :=
        { p.golfEntity with shotCount := p.golfEntity.shotCount + 1 } }
  else p

/-- Per-player body of a controller tick: the entity at position i runs the
golf controls handler. -/
def tickF (i : Nat) (inp : Input) (j : Nat) (p : PlayerScore) : PlayerScore :=
  if j = i then
    { p with golfEntity := (GolfPlayerEntity.golfControlsTick inp p.golfEntity).1 }
  else p

/-- Embedding of _startPlayerTurn: with no current player return early;
otherwise end the turn of every other player, assign the ball to the current
player when one exists, and start the current players turn. -/
def startPlayerTurn (s : GameState) : GameState :=
  match s.players[s.currentPlayerIndex]? with
  | none => s
  | some _ =>
    { s with players :=
        mapIdxFrom (startPlayerTurnF s.currentPlayerIndex s.golfBall.isSome) 0 s.players }

/-- Embedding of _startHole: when the index is past the last hole the source
calls this._endGame(), a method that does not exist, so the process dies with
a TypeError; otherwise place the ball at the tee, reset the player turn index
to 0 and start the first players turn. -/
def startHole (s : GameState) (holeIndex : Nat) : GameState :=
  match s.holes[holeIndex]? with
  | none => { s with crashed := true }
  | some hole =>
    startPlayerTurn
      { s with currentHole := holeIndex,
               currentPlayerIndex := 0,
               golfBall := s.golfBall.map (fun b =>
                 { b with isSpawned := true,
                          position := hole.teePosition,
                          linearVelocity := Vec3.zero,
                          angularVelocity := Vec3.zero }) }

/-- Embedding of _nextPlayerTurn: while the ball is still moving the source
re-arms a timer and does nothing yet (modelled as the identity; the advance
happens once the ball has stopped); then the current player index advances by
one modulo the map size and the next turn starts. -/
def nextPlayerTurn (s : GameState) : GameState :=
  if s.crashed then s
  else if ballMoving s then s
  else startPlayerTurn
    { s with currentPlayerIndex := (s.currentPlayerIndex + 1) % s.players.length }

/-- The fresh PlayerScore record addPlayer builds for a joining player. -/
def freshScore (pid : String) : PlayerScore :=
  { pid := pid, golfEntity := GolfPlayerEntity.freshPlayer,
    strokes := [], totalStrokes := 0, currentHole := 0 }

/-- Embedding of addPlayer: insert a fresh PlayerScore under the players id
(Map.set overwrites an existing key in place, otherwise appends). -/
def addPlayer (s : GameState) (pid : String) : GameState :=
  if s.crashed then s
  else if s.players.any (fun q => q.pid = pid) then
    { s with players := s.players.map (fun q => if q.pid = pid then freshScore pid else q) }
  else
    { s with players := s.players ++ [freshScore pid] }

/-- The manager state right after Map.delete removed the player with id pid. -/
def removedState (s : GameState) (pid : String) : GameState :=
  { s with players := s.players.filter (fun q => !(q.pid = pid)) }

/-- Embedding of removePlayer: delete from the map, then (after the deletion)
compare the id of the player now at the current index with the removed id and
advance the turn on a match. -/
def removePlayer (s : GameState) (pid : String) : GameState :=
  if s.crashed then s
  else if (removedState s pid).gameInProgress &&
      ((getCurrentPlayer (removedState s pid)).map (fun p => p.pid) = some pid) then
    nextPlayerTurn (removedState s pid)
  else removedState s pid

/-- Embedding of startGame: refuse with no players; otherwise raise the
in-progress flag, reset hole, player index and all scores, create a fresh golf
ball and start hole 0. -/
def startGame (s : GameState) : GameState :=
  if s.crashed then s
  else if s.players.length = 0 then s
  else
    startHole
      { s with gameInProgress := true,
               currentHole := 0,
               currentPlayerIndex := 0,
               players := s.players.map (fun p =>
                 { p with strokes := [], totalStrokes := 0, currentHole := 0 }),
               golfBall := some GolfBallEntity.freshBall }
      0

/-- The ordering of the JS comparator (a, b) => a.totalStrokes - b.totalStrokes:
ascending by total strokes. -/
def scoreLE (a b : PlayerScore) : Prop := a.totalStrokes ≤ b.totalStrokes

instance : DecidableRel scoreLE := fun a b => Nat.decLe _ _

instance : IsTotal PlayerScore scoreLE := ⟨fun a b => Nat.le_total a.totalStrokes b.totalStrokes⟩

instance : IsTrans PlayerScore scoreLE := ⟨fun _ _ _ h1 h2 => Nat.le_trans h1 h2⟩

/-- Embedding of _calculateFinalScores: the player list sorted ascending by
totalStrokes (Array.prototype.sort with the comparator above, a stable
comparison sort, modelled by a stable insertion sort). -/
def calculateFinalScores (s : GameState) : List PlayerScore :=
  s.players.insertionSort scoreLE

/-- A live leaderboard row as sent to the UI. -/
structure LeaderboardRow where
  playerName : String
  totalStrokes : Nat
  currentHole : Nat
  strokes : List (Option Nat)
deriving DecidableEq

/-- Ascending order on leaderboard rows, again the JS comparator
(a, b) => a.totalStrokes - b.totalStrokes. -/
def rowLE (a b : LeaderboardRow) : Prop := a.totalStrokes ≤ b.totalStrokes

instance : DecidableRel rowLE := fun a b => Nat.decLe _ _

instance : IsTotal LeaderboardRow rowLE := ⟨fun a b => Nat.le_total a.totalStrokes b.totalStrokes⟩

instance : IsTrans LeaderboardRow rowLE := ⟨fun _ _ _ h1 h2 => Nat.le_trans h1 h2⟩

/-- Embedding of _calculateCurrentLeaderboard: map each player to a row, then
sort ascending by totalStrokes. -/
def calculateCurrentLeaderboard (s : GameState) : List LeaderboardRow :=
  let toRow : PlayerScore → LeaderboardRow := fun p =>
    { playerName := p.pid, totalStrokes := p.totalStrokes,
      currentHole := s.currentHole + 1, strokes := p.strokes }
  (s.players.map toRow).insertionSort rowLE

/-- The manager state after endGame cleared the in-progress flag and ended
the current players turn (when a current player exists). -/
def endedState (s : GameState) : GameState :=
  match s.players[s.currentPlayerIndex]? with
  | none => { s with gameInProgress := false }
  | some _ =>
    { s with gameInProgress := false,
             players := mapIdxFrom (endTurnAtF s.currentPlayerIndex) 0 s.players }

/-- Embedding of endGame: return unless in progress; clear the flag, end the
current players turn when there is one, compute the final scores and report
the winner finalScores[0].  With an empty roster winner is undefined and
reading winner.player.username throws, crashing the process. -/
def endGame (s : GameState) : GameState :=
  if s.crashed then s
  else if !s.gameInProgress then s
  else
    match (calculateFinalScores (endedState s)).head? with
    | none => { endedState s with crashed := true }
    | some _ => endedState s

/-- The manager state right after _handleBallInHole recorded the live shot
count of the current player cur as the score of the current hole and added it
to that players total. -/
def recordedState (s : GameState) (cur : PlayerScore) : GameState :=
  { s with players := mapIdxFrom (recordScoreF s.currentPlayerIndex s.currentHole (GolfPlayerEntity.getScore cur.golfEntity)) 0 s.players }

/-- The composite effect of a ball-in-hole delivery whose three second
result-display timer then fires with no intervening event: the synchronous
recording immediately followed by the deferred hole start.  The game step
relation uses the two halves handleBallInHoleRecord and deferredHoleStart
separately (see handleBallInHole_split for the agreement on the armed
path). -/
def handleBallInHole (s : GameState) : GameState :=
  if s.crashed then s
  else if !s.gameInProgress then s
  else
    match getCurrentPlayer s with
    | none => s
    | some cur =>
      match s.holes[s.currentHole]? with
      | none => { recordedState s cur with crashed := true }
      | some _ => startHole (recordedState s cur) (s.currentHole + 1)

/-- The synchronous body of _handleBallInHole: return unless in progress and a
current player exists; read the current players live shot count, record it as
the per-hole score at the current hole and add it to the total (the par read
right after the recording throws on an out-of-range hole).  The handler then
arms the 3000 ms timer whose callback is deferredHoleStart. -/
def handleBallInHoleRecord (s : GameState) : GameState :=
  if s.crashed then s
  else if !s.gameInProgress then s
  else
    match getCurrentPlayer s with
    | none => s
    | some cur =>
      match s.holes[s.currentHole]? with
      | none => { recordedState s cur with crashed := true }
      | some _ => recordedState s cur

/-- The callback of the 3000 ms timer armed by _handleBallInHole: it reads the
current hole index at fire time and starts the next hole (a dead process runs
no callbacks). -/
def deferredHoleStart (s : GameState) : GameState :=
  if s.crashed then s else startHole s (s.currentHole + 1)

/-- The manager state right after _handleWaterHazard added the penalty stroke
to the current players entity. -/
def penalizedState (s : GameState) : GameState :=
  { s with players := mapIdxFrom (penaltyF s.currentPlayerIndex) 0 s.players }

/-- Embedding of _handleWaterHazard: return with no current player; add one
penalty stroke directly to the current players shot count, then reset the ball
to the tee of the current hole (reading the tee of an out-of-range hole would
throw). -/
def handleWaterHazard (s : GameState) : GameState :=
  if s.crashed then s
  else
    match getCurrentPlayer s with
    | none => s
    | some _ =>
      match s.holes[s.currentHole]? with
      | none => { penalizedState s with crashed := true }
      | some hole =>
        { penalizedState s with golfBall := s.golfBall.map (fun b =>
            GolfBallEntity.resetToPosition b hole.teePosition) }

/-- Route an emitted hit command to the golf ball. -/
def tickBall (shot : Option (Vec3 × ℚ)) (ball : Option GolfBallEntity) :
    Option GolfBallEntity :=
  match shot, ball with
  | some (d, force), some b => some (GolfBallEntity.hit b d force).1
  | _, _ => ball

/-- One controller input tick for the player at list position i: run the golf
controls handler on that players entity and route an emitted hit to the golf
ball. -/
def playerTick (s : GameState) (i : Nat) (inp : Input) : GameState :=
  if s.crashed then s
  else
    match s.players[i]? with
    | none => s
    | some p =>
      { s with players := mapIdxFrom (tickF i inp) 0 s.players,
               golfBall := tickBall (GolfPlayerEntity.golfControlsTick inp p.golfEntity).2 s.golfBall }

/-- Engine-driven rigid-body evolution of a spawned ball between golf events:
the delegated physics may move the ball and change its velocities arbitrarily.
This also covers the R-key ball reset of the controls handler. -/
def ballPhysics (s : GameState) (pos vel avel : Vec3) : GameState :=
  if s.crashed then s
  else
    match s.golfBall with
    | some b =>
      if b.isSpawned then
        { s with golfBall := some { b with position := pos, linearVelocity := vel, angularVelocity := avel } }
      else s
    | none => s

/-- One event of the plugin: a public manager call, a ball collision event, a
turn advance after a shot settled, a controller input tick, engine physics on
the ball, or the firing of the three second hole-start timer.  The recording
made by the ball-in-hole collision handler (holeRecord) and the deferred hole
start of the timer it arms (holeTimer) are separate steps, so other events —
including a repeated ball-in-hole — can land inside the result-display
window.  The timer step may fire at any time, a superset of the real arming
discipline that only adds behaviours. -/
inductive Step : GameState → GameState → Prop
  | add (s : GameState) (pid : String) : Step s (addPlayer s pid)
  | remove (s : GameState) (pid : String) : Step s (removePlayer s pid)
  | start (s : GameState) : Step s (startGame s)
  | finish (s : GameState) : Step s (endGame s)
  | holeRecord (s : GameState) : Step s (handleBallInHoleRecord s)
  | holeTimer (s : GameState) : Step s (deferredHoleStart s)
  | waterEvent (s : GameState) : Step s (handleWaterHazard s)
  | advance (s : GameState) : Step s (nextPlayerTurn s)
  | tick (s : GameState) (i : Nat) (inp : Input) : Step s (playerTick s i inp)
  | physics (s : GameState) (pos vel avel : Vec3) : Step s (ballPhysics s pos vel avel)

/-- States the plugin can reach from the freshly constructed manager. -/
def Reachable (s : GameState) : Prop :=
  Relation.ReflTransGen Step initialState s

/-- One event under the single-delivery discipline: the ball-in-hole event is
delivered at most once per hole completion and nothing lands between a
recording and its deferred hole start, so every completion takes the composite
form handleBallInHole. -/
inductive OrderlyStep : GameState → GameState → Prop
  | add (s : GameState) (pid : String) : OrderlyStep s (addPlayer s pid)
  | remove (s : GameState) (pid : String) : OrderlyStep s (removePlayer s pid)
  | start (s : GameState) : OrderlyStep s (startGame s)
  | finish (s : GameState) : OrderlyStep s (endGame s)
  | holeEvent (s : GameState) : OrderlyStep s (handleBallInHole s)
  | waterEvent (s : GameState) : OrderlyStep s (handleWaterHazard s)
  | advance (s : GameState) : OrderlyStep s (nextPlayerTurn s)
  | tick (s : GameState) (i : Nat) (inp : Input) : OrderlyStep s (playerTick s i inp)
  | physics (s : GameState) (pos vel avel : Vec3) : OrderlyStep s (ballPhysics s pos vel avel)

/-- States the plugin can reach under the single-delivery discipline. -/
def OrderlyReachable (s : GameState) : Prop :=
  Relation.ReflTransGen OrderlyStep initialState s

/-- Number of registered players whose entity has an active turn. -/
def activeTurnCount (s : GameState) : Nat :=
  s.players.countP (fun p => p.golfEntity.isPlayerTurn)

/-- Every registered players recorded total equals the sum of the recorded
per-hole strokes. -/
def scoresConsistent (s : GameState) : Prop :=
  ∀ p ∈ s.players, p.totalStrokes = strokesSum p.strokes

/-- No player has a recorded score at the current hole or any later hole. -/
def holesFresh (s : GameState) : Prop :=
  ∀ p ∈ s.players, ∀ j, s.currentHole ≤ j → getStroke p.strokes j = none

/-- The inductive state invariant maintained under the single-delivery
discipline (OrderlyStep): score consistency, fresh current and future holes
while the process is alive, at most one active turn, and bounded power on
every registered entity.  The two score components are not invariants of the
full step relation: a repeated ball-in-hole delivery inside the
result-display window re-adds the live shot count to totalStrokes while
overwriting the same per-hole entry. -/
def Inv (s : GameState) : Prop :=
  scoresConsistent s ∧ (s.crashed = false → holesFresh s) ∧
    activeTurnCount s ≤ 1 ∧ ∀ p ∈ s.players, GolfPlayerEntity.powerOk p.golfEntity

/-- The components of the invariant that survive arbitrary interleavings of
the full step relation: at most one active turn and bounded power on every
registered entity. -/
def SafeInv (s : GameState) : Prop :=
  activeTurnCount s ≤ 1 ∧ ∀ p ∈ s.players, GolfPlayerEntity.powerOk p.golfEntity

end GolfGameManager

/-- Events that can touch one players shot count within a single turn: a
controller input tick, or a water-hazard penalty (the manager increments the
entitys shot count directly). -/
inductive TurnEvent
  | tickEv (inp : Input)
  | penaltyEv

/-- Run a list of turn events on a player entity, counting the ball-hit
commands the ticks emit. -/
def runTurnEvents : GolfPlayerEntity → List TurnEvent → GolfPlayerEntity × Nat
  | e, [] => (e, 0)
  | e, TurnEvent.tickEv inp :: rest =>
    let r := GolfPlayerEntity.golfControlsTick inp e
    let rec' := runTurnEvents r.1 rest
    (rec'.1, (if r.2.isSome then 1 else 0) + rec'.2)
  | e, TurnEvent.penaltyEv :: rest =>
    runTurnEvents { e with shotCount := e.shotCount + 1 } rest

/-- Number of water-hazard penalties in a list of turn events. -/
def countPenalties (evs : List TurnEvent) : Nat :=
  (evs.filter (fun ev => match ev with | TurnEvent.penaltyEv => true | _ => false)).length

namespace GolfGameManager

/-- Concrete state on the last hole of the default course: one registered
player, game in progress, the current player has taken 3 shots this turn and
already has hole scores 4 and 5 recorded. -/
def lastHoleState : GameState :=
  { players := [{ freshScore "p1" with
      golfEntity := { GolfPlayerEntity.freshPlayer with
        isPlayerTurn := true, hasBall := true, shotCount := 3 },
      strokes := [some 4, some 5], totalStrokes := 9 }]
    currentPlayerIndex := 0
    currentHole := 2
    gameInProgress := true
    holes := defaultHoles
    golfBall := some { GolfBallEntity.freshBall with isSpawned := true }
    crashed := false }

/-- Concrete three-player roster mid-game, ball at rest (absent). -/
def rosterState : GameState :=
  { players := [freshScore "a", freshScore "b", freshScore "c"]
    currentPlayerIndex := 0
    currentHole := 0
    gameInProgress := true
    holes := defaultHoles
    golfBall := none
    crashed := false }

/-- Concrete current player about to take a water-hazard penalty. -/
def wPlayer : PlayerScore :=
  { pid := "w"
    golfEntity := { GolfPlayerEntity.freshPlayer with
      isPlayerTurn := true, hasBall := true, shotCount := 2 }
    strokes := []
    totalStrokes := 0
    currentHole := 0 }

/-- Concrete spawned moving ball about to land in the water. -/
def wBall : GolfBallEntity :=
  { GolfBallEntity.freshBall with
    isSpawned := true, position := ⟨1, 2, 3⟩, linearVelocity := ⟨1, 0, 0⟩ }

/-- Concrete state in which the ball enters a water hazard on hole 0. -/
def waterState : GameState :=
  { players := [wPlayer]
    currentPlayerIndex := 0
    currentHole := 0
    gameInProgress := true
    holes := defaultHoles
    golfBall := some wBall
    crashed := false }

end GolfGameManager

/-- Concrete charged-up entity whose player is mid-turn. -/
def chargedEnt : GolfPlayerEntity :=
  { GolfPlayerEntity.freshPlayer with
    isPlayerTurn := true, isAiming := true, isCharging := true,
    hasBall := true, currentPower := 60 }

/-- Concrete input frame releasing the space key. -/
def releaseInput : Input :=
  { sp := false, f := false, r := false, facing := ⟨1, 0, 0⟩ }

/-- Concrete input frame holding the space key to charge. -/
def chargeInput : Input :=
  { sp := true, f := false, r := false, facing := ⟨1, 0, 0⟩ }

namespace GolfGameManager

/-- The state after one player joins, the game starts, the player charges for
one tick and releases the shot (live shot count 1), and the ball-in-hole
collision event is then delivered twice before the three second hole-start
timer fires. -/
def doubleHoleState : GameState :=
  handleBallInHoleRecord (handleBallInHoleRecord
    (playerTick (playerTick (startGame (addPlayer initialState "a")) 0 chargeInput)
      0 releaseInput))

end GolfGameManager

/-! ## Geometry of the course stamping helpers -/

theorem mem_intRange (lo hi a : Int) : a ∈ intRange lo hi ↔ lo ≤ a ∧ a ≤ hi := by
  simp only [intRange, List.mem_map, List.mem_range, Int.ofNat_eq_natCast]
  constructor
  · rintro ⟨k, hk, rfl⟩
    omega
  · rintro ⟨h1, h2⟩
    exact ⟨(a - lo).toNat, by omega, by omega⟩

theorem mem_buildRectangle (c1 c2 : Vec3i) (blockId : Int) (p : Vec3i) (b : Int) :
    (p, b) ∈ buildRectangle c1 c2 blockId ↔
      b = blockId ∧
      min c1.x c2.x ≤ p.x ∧ p.x ≤ max c1.x c2.x ∧
      min c1.y c2.y ≤ p.y ∧ p.y ≤ max c1.y c2.y ∧
      min c1.z c2.z ≤ p.z ∧ p.z ≤ max c1.z c2.z := by
  simp only [buildRectangle, List.mem_flatMap, List.mem_map, mem_intRange]
  constructor
  · rintro ⟨x, hx, y, hy, z, hz, heq⟩
    injection heq with hp hb
    subst hb
    subst hp
    exact ⟨rfl, hx.1, hx.2, hy.1, hy.2, hz.1, hz.2⟩
  · rintro ⟨rfl, hx1, hx2, hy1, hy2, hz1, hz2⟩
    refine ⟨p.x, ⟨hx1, hx2⟩, p.y, ⟨hy1, hy2⟩, p.z, ⟨hz1, hz2⟩, ?_⟩
    cases p
    rfl

theorem buildRectangle_swap (c1 c2 : Vec3i) (blockId : Int) :
    buildRectangle c1 c2 blockId = buildRectangle c2 c1 blockId := by
  simp only [buildRectangle, min_comm, max_comm]

theorem mem_buildCircle (center : Vec3i) (radius blockId : Int) (p : Vec3i) (b : Int) :
    (p, b) ∈ buildCircle center radius blockId ↔
      b = blockId ∧ p.y = center.y ∧
      center.x - radius ≤ p.x ∧ p.x ≤ center.x + radius ∧
      center.z - radius ≤ p.z ∧ p.z ≤ center.z + radius ∧
      (p.x - center.x) ^ 2 + (p.z - center.z) ^ 2 ≤ radius ^ 2 := by
  simp only [buildCircle, List.mem_flatMap, mem_intRange]
  constructor
  · rintro ⟨x, hx, z, hz, hmem⟩
    by_cases hd : (x - center.x) ^ 2 + (z - center.z) ^ 2 ≤ radius ^ 2
    · rw [if_pos hd] at hmem
      rw [List.mem_singleton] at hmem
      injection hmem with hp hb
      subst hb
      subst hp
      exact ⟨rfl, rfl, hx.1, hx.2, hz.1, hz.2, hd⟩
    · rw [if_neg hd] at hmem
      exact absurd hmem (List.not_mem_nil _)
  · rintro ⟨rfl, hy, hx1, hx2, hz1, hz2, hd⟩
    refine ⟨p.x, ⟨hx1, hx2⟩, p.z, ⟨hz1, hz2⟩, ?_⟩
    rw [if_pos hd, List.mem_singleton]
    cases p
    cases hy
    rfl

/-- C7.  Course stamping: buildRectangle writes blockId at exactly the integer
lattice points between the componentwise minima and maxima of its two corners,
so its write list is unchanged when the corners are swapped; and, for a
nonnegative radius, buildCircle writes blockId at exactly the points of the
enclosing square at height center.y whose Euclidean distance from
(center.x, center.z) is at most radius (stated with both sides squared, which
for a nonnegative radius is equivalent to the source comparison
sqrt(dx^2 + dz^2) <= radius). -/
theorem course_stamping (c1 c2 : Vec3i) (blockId : Int) (p : Vec3i) (b : Int)
    (center : Vec3i) (radius : Int) (hr : 0 ≤ radius) :
    ((p, b) ∈ buildRectangle c1 c2 blockId ↔
      b = blockId ∧
      min c1.x c2.x ≤ p.x ∧ p.x ≤ max c1.x c2.x ∧
      min c1.y c2.y ≤ p.y ∧ p.y ≤ max c1.y c2.y ∧
      min c1.z c2.z ≤ p.z ∧ p.z ≤ max c1.z c2.z) ∧
    buildRectangle c1 c2 blockId = buildRectangle c2 c1 blockId ∧
    ((p, b) ∈ buildCircle center radius blockId ↔
      b = blockId ∧ p.y = center.y ∧
      center.x - radius ≤ p.x ∧ p.x ≤ center.x + radius ∧
      center.z - radius ≤ p.z ∧ p.z ≤ center.z + radius ∧
      (p.x - center.x) ^ 2 + (p.z - center.z) ^ 2 ≤ radius ^ 2) :=
  ⟨mem_buildRectangle c1 c2 blockId p b,
   buildRectangle_swap c1 c2 blockId,
   mem_buildCircle center radius blockId p b⟩

/-- Witness for C7 at concrete corners, block ids, point and radius. -/
theorem course_stamping_witness :
    (0 : Int) ≤ 2 ∧
    (((⟨1, 0, 2⟩ : Vec3i), (7 : Int)) ∈ buildRectangle ⟨3, 0, 2⟩ ⟨0, 0, 0⟩ 7 ↔
      (7 : Int) = 7 ∧
      min (3 : Int) 0 ≤ 1 ∧ (1 : Int) ≤ max 3 0 ∧
      min (0 : Int) 0 ≤ 0 ∧ (0 : Int) ≤ max 0 0 ∧
      min (2 : Int) 0 ≤ 2 ∧ (2 : Int) ≤ max 2 0) ∧
    buildRectangle ⟨3, 0, 2⟩ ⟨0, 0, 0⟩ 7 = buildRectangle ⟨0, 0, 0⟩ ⟨3, 0, 2⟩ 7 ∧
    (((⟨1, 0, 2⟩ : Vec3i), (7 : Int)) ∈ buildCircle ⟨0, 0, 1⟩ 2 7 ↔
      (7 : Int) = 7 ∧ (0 : Int) = 0 ∧
      (0 : Int) - 2 ≤ 1 ∧ (1 : Int) ≤ 0 + 2 ∧
      (1 : Int) - 2 ≤ 2 ∧ (2 : Int) ≤ 1 + 2 ∧
      ((1 : Int) - 0) ^ 2 + ((2 : Int) - 1) ^ 2 ≤ 2 ^ 2) :=
  ⟨by decide, course_stamping ⟨3, 0, 2⟩ ⟨0, 0, 0⟩ 7 ⟨1, 0, 2⟩ 7 ⟨0, 0, 1⟩ 2 (by decide)⟩

/-! ## Ball entity -/

/-- C8.  Physics delegation on hit: GolfBallEntity.hit never mutates the
entity fields, and it emits exactly one engine impulse, with components
direction * force * ballMass, when the ball is spawned and none otherwise. -/
theorem hit_impulse_delegation (b : GolfBallEntity) (direction : Vec3) (force : ℚ) :
    (GolfBallEntity.hit b direction force).1 = b ∧
    (GolfBallEntity.hit b direction force).2 =
      (if b.isSpawned then
        [⟨direction.x * force * b.ballMass,
          direction.y * force * b.ballMass,
          direction.z * force * b.ballMass⟩]
       else []) := by
  unfold GolfBallEntity.hit
  cases hb : b.isSpawned <;> simp [hb]

/-! ## Sparse strokes array lemmas -/

theorem getStroke_nil (j : Nat) : getStroke [] j = none := by
  simp [getStroke]

theorem getStroke_cons_succ (a : Option Nat) (l : List (Option Nat)) (j : Nat) :
    getStroke (a :: l) (j + 1) = getStroke l j := by
  simp [getStroke]

theorem getStroke_setStroke (h : Nat) (l : List (Option Nat)) (v j : Nat) :
    getStroke (setStroke l h v) j = if j = h then some v else getStroke l j := by
  induction h generalizing l j with
  | zero =>
    cases l <;> cases j <;> simp [setStroke, getStroke]
  | succ h ih =>
    cases l with
    | nil =>
      cases j with
      | zero => simp [setStroke, getStroke]
      | succ j =>
        rw [show setStroke [] (h + 1) v = none :: setStroke [] h v from rfl,
          getStroke_cons_succ, ih]
        simp [getStroke_nil]
    | cons a rest =>
      cases j with
      | zero => simp [setStroke, getStroke]
      | succ j =>
        rw [show setStroke (a :: rest) (h + 1) v = a :: setStroke rest h v from rfl,
          getStroke_cons_succ, ih, getStroke_cons_succ]
        simp

theorem strokesSum_nil : strokesSum [] = 0 := rfl

theorem strokesSum_cons (a : Option Nat) (l : List (Option Nat)) :
    strokesSum (a :: l) = a.getD 0 + strokesSum l := by
  simp [strokesSum]

theorem strokesSum_setStroke (h : Nat) (l : List (Option Nat)) (v : Nat)
    (hnone : getStroke l h = none) :
    strokesSum (setStroke l h v) = strokesSum l + v := by
  induction h generalizing l with
  | zero =>
    cases l with
    | nil => simp [setStroke, strokesSum]
    | cons a rest =>
      have ha : a = none := by simpa [getStroke] using hnone
      subst ha
      simp [setStroke, strokesSum_cons]
      omega
  | succ h ih =>
    cases l with
    | nil =>
      rw [show setStroke [] (h + 1) v = none :: setStroke [] h v from rfl,
        strokesSum_cons, ih [] (getStroke_nil h)]
      simp [strokesSum]
    | cons a rest =>
      rw [show setStroke (a :: rest) (h + 1) v = a :: setStroke rest h v from rfl,
        strokesSum_cons, strokesSum_cons, ih rest (by simpa [getStroke_cons_succ] using hnone)]
      omega

/-! ## mapIdxFrom lemmas -/

theorem length_mapIdxFrom (f : Nat → PlayerScore → PlayerScore) (k : Nat)
    (l : List PlayerScore) : (mapIdxFrom f k l).length = l.length := by
  induction l generalizing k with
  | nil => rfl
  | cons p ps ih => simp [mapIdxFrom, ih]

theorem getElem?_mapIdxFrom (f : Nat → PlayerScore → PlayerScore) (k : Nat)
    (l : List PlayerScore) (i : Nat) :
    (mapIdxFrom f k l)[i]? = (l[i]?).map (f (k + i)) := by
  induction l generalizing k i with
  | nil => simp [mapIdxFrom]
  | cons p ps ih =>
    cases i with
    | zero => simp [mapIdxFrom]
    | succ j =>
      have harith : k + 1 + j = k + (j + 1) := by omega
      simp only [mapIdxFrom, List.getElem?_cons_succ, ih (k + 1) j, harith]

theorem forall_mem_mapIdxFrom (P Q : PlayerScore → Prop)
    (f : Nat → PlayerScore → PlayerScore) (k : Nat) (l : List PlayerScore)
    (hf : ∀ j p, p ∈ l → Q p → P (f j p)) (hl : ∀ p ∈ l, Q p) :
    ∀ p' ∈ mapIdxFrom f k l, P p' := by
  induction l generalizing k with
  | nil => intro p' hp'; simp [mapIdxFrom] at hp'
  | cons p ps ih =>
    intro p' hp'
    rcases List.mem_cons.1 hp' with h | h
    · exact h ▸ hf k p (List.mem_cons_self p ps) (hl p (List.mem_cons_self p ps))
    · exact ih (k + 1) (fun j q hq => hf j q (List.mem_cons_of_mem p hq))
        (fun q hq => hl q (List.mem_cons_of_mem p hq)) p' h

theorem countP_mapIdxFrom_zero (f : Nat → PlayerScore → PlayerScore)
    (q : PlayerScore → Bool) (idx k : Nat) (l : List PlayerScore)
    (hf : ∀ j p, j ≠ idx → q (f j p) = false) (hk : idx < k) :
    (mapIdxFrom f k l).countP q = 0 := by
  induction l generalizing k with
  | nil => rfl
  | cons p ps ih =>
    simp only [mapIdxFrom, List.countP_cons, hf k p (by omega)]
    simpa using ih (k + 1) (by omega)

theorem countP_mapIdxFrom_le_one (f : Nat → PlayerScore → PlayerScore)
    (q : PlayerScore → Bool) (idx k : Nat) (l : List PlayerScore)
    (hf : ∀ j p, j ≠ idx → q (f j p) = false) :
    (mapIdxFrom f k l).countP q ≤ 1 := by
  induction l generalizing k with
  | nil => simp [mapIdxFrom]
  | cons p ps ih =>
    by_cases hki : k = idx
    · subst hki
      have h0 : (mapIdxFrom f (k + 1) ps).countP q = 0 :=
        countP_mapIdxFrom_zero f q k (k + 1) ps hf (by omega)
      simp only [mapIdxFrom, List.countP_cons, h0]
      by_cases hq : q (f k p) = true <;> simp [hq]
    · simp only [mapIdxFrom, List.countP_cons, hf k p hki]
      simpa using ih (k + 1)

theorem countP_mapIdxFrom_le (f : Nat → PlayerScore → PlayerScore)
    (q : PlayerScore → Bool) (k : Nat) (l : List PlayerScore)
    (hf : ∀ j p, q (f j p) = true → q p = true) :
    (mapIdxFrom f k l).countP q ≤ l.countP q := by
  induction l generalizing k with
  | nil => simp [mapIdxFrom]
  | cons p ps ih =>
    simp only [mapIdxFrom, List.countP_cons]
    have hps := ih (k + 1)
    by_cases hq : q (f k p) = true
    · simp [hq, hf k p hq]
      omega
    · simp only [Bool.not_eq_true] at hq
      simp only [hq]
      by_cases hp : q p = true <;> simp [hp] <;> omega

/-! ## Player entity lemmas -/

namespace GolfPlayerEntity

theorem updatePower_powerOk (e : GolfPlayerEntity) (h : powerOk e) :
    powerOk (updatePower e) := by
  unfold updatePower
  split_ifs with hc
  · exact h
  · have hmp : (0 : ℚ) ≤ e.maxPower := h.1.trans h.2
    constructor
    · exact le_min (add_nonneg h.1 (div_nonneg hmp (by norm_num))) hmp
    · exact min_le_right _ _

theorem updatePower_spec (e : GolfPlayerEntity) (hc : e.isCharging = true) :
    (updatePower e).currentPower = min (e.currentPower + e.maxPower / 120) e.maxPower := by
  unfold updatePower
  simp only [hc]
  norm_num

theorem tickRest_isPlayerTurn (inp : Input) (e : GolfPlayerEntity) :
    (tickRest inp e).isPlayerTurn = e.isPlayerTurn := by
  unfold tickRest toggleAiming stopAiming startAiming updatePower
  split_ifs <;> rfl

theorem tickRest_isCharging (inp : Input) (e : GolfPlayerEntity) :
    (tickRest inp e).isCharging = e.isCharging := by
  unfold tickRest toggleAiming stopAiming startAiming updatePower
  split_ifs <;> rfl

theorem tickRest_shotCount (inp : Input) (e : GolfPlayerEntity) :
    (tickRest inp e).shotCount = e.shotCount := by
  unfold tickRest toggleAiming stopAiming startAiming updatePower
  split_ifs <;> rfl

theorem tickRest_maxPower (inp : Input) (e : GolfPlayerEntity) :
    (tickRest inp e).maxPower = e.maxPower := by
  unfold tickRest toggleAiming stopAiming startAiming updatePower
  split_ifs <;> rfl

theorem tickRest_powerOk (inp : Input) (e : GolfPlayerEntity) (h : powerOk e) :
    powerOk (tickRest inp e) := by
  have h1 : powerOk (updatePower e) := updatePower_powerOk e h
  unfold tickRest toggleAiming stopAiming startAiming
  split_ifs <;> exact ⟨h1.1, h1.2⟩

theorem executeShot_success (facing : Vec3) (e : GolfPlayerEntity)
    (hc : e.isCharging = true) (hb : e.hasBall = true) (hw : e.hasWorld = true) :
    executeShot facing e =
      ({ e with isCharging := false, shotCount := e.shotCount + 1,
                currentPower := 0, isAiming := false },
       some (facing, e.currentPower / e.maxPower * 50)) := by
  unfold executeShot
  simp [hc, hb, hw]

theorem executeShot_noop (facing : Vec3) (e : GolfPlayerEntity)
    (h : e.isCharging = false ∨ e.hasBall = false ∨ e.hasWorld = false) :
    executeShot facing e = (e, none) := by
  unfold executeShot
  rcases h with h | h | h <;> simp [h]

theorem executeShot_isPlayerTurn (facing : Vec3) (e : GolfPlayerEntity) :
    ((executeShot facing e).1).isPlayerTurn = e.isPlayerTurn := by
  unfold executeShot
  split_ifs <;> rfl

theorem executeShot_maxPower (facing : Vec3) (e : GolfPlayerEntity) :
    ((executeShot facing e).1).maxPower = e.maxPower := by
  unfold executeShot
  split_ifs <;> rfl

theorem executeShot_shotCount (facing : Vec3) (e : GolfPlayerEntity) :
    ((executeShot facing e).1).shotCount =
      e.shotCount + (if (executeShot facing e).2.isSome then 1 else 0) := by
  unfold executeShot
  split_ifs <;> simp_all

theorem executeShot_powerOk (facing : Vec3) (e : GolfPlayerEntity) (h : powerOk e) :
    powerOk (executeShot facing e).1 := by
  unfold executeShot
  split_ifs
  · exact h
  · exact ⟨le_refl 0, h.1.trans h.2⟩

theorem startCharging_powerOk (e : GolfPlayerEntity) (h : powerOk e) :
    powerOk (startCharging e) :=
  ⟨le_refl 0, h.1.trans h.2⟩

theorem golfControlsTick_isPlayerTurn (inp : Input) (e : GolfPlayerEntity) :
    ((golfControlsTick inp e).1).isPlayerTurn = e.isPlayerTurn := by
  unfold golfControlsTick
  split_ifs
  · rfl
  · rw [tickRest_isPlayerTurn]; rfl
  · rw [tickRest_isPlayerTurn, executeShot_isPlayerTurn]
  · rw [tickRest_isPlayerTurn]

theorem golfControlsTick_maxPower (inp : Input) (e : GolfPlayerEntity) :
    ((golfControlsTick inp e).1).maxPower = e.maxPower := by
  unfold golfControlsTick
  split_ifs
  · rfl
  · rw [tickRest_maxPower]; rfl
  · rw [tickRest_maxPower, executeShot_maxPower]
  · rw [tickRest_maxPower]

theorem golfControlsTick_shotCount (inp : Input) (e : GolfPlayerEntity) :
    ((golfControlsTick inp e).1).shotCount =
      e.shotCount + (if (golfControlsTick inp e).2.isSome then 1 else 0) := by
  unfold golfControlsTick
  split_ifs <;> simp_all [tickRest_shotCount, executeShot_shotCount, startCharging]

theorem golfControlsTick_powerOk (inp : Input) (e : GolfPlayerEntity)
    (h : powerOk e) : powerOk ((golfControlsTick inp e).1) := by
  unfold golfControlsTick
  split_ifs
  · exact h
  · exact tickRest_powerOk inp _ (startCharging_powerOk e h)
  · exact tickRest_powerOk inp _ (executeShot_powerOk inp.facing e h)
  · exact tickRest_powerOk inp e h

theorem startTurn_shotCount (e : GolfPlayerEntity) : (startTurn e).shotCount = 0 := by
  unfold startTurn startAiming
  split_ifs <;> rfl

theorem startTurn_isPlayerTurn (e : GolfPlayerEntity) :
    (startTurn e).isPlayerTurn = true := by
  unfold startTurn startAiming
  split_ifs <;> rfl

theorem startTurn_strokeFields (e : GolfPlayerEntity) :
    (startTurn e).currentPower = e.currentPower ∧ (startTurn e).maxPower = e.maxPower := by
  unfold startTurn startAiming
  split_ifs <;> exact ⟨rfl, rfl⟩

theorem startTurn_powerOk (e : GolfPlayerEntity) (h : powerOk e) :
    powerOk (startTurn e) := by
  have h1 := startTurn_strokeFields e
  exact ⟨h1.1 ▸ h.1, h1.1 ▸ h1.2 ▸ h.2⟩

theorem endTurn_powerOk (e : GolfPlayerEntity) (h : powerOk e) :
    powerOk (endTurn e) :=
  ⟨le_refl 0, h.1.trans h.2⟩

theorem setGolfBall_powerOk (e : GolfPlayerEntity) (h : powerOk e) :
    powerOk (setGolfBall e) := h

end GolfPlayerEntity


/-! ## Manager lemmas -/

namespace GolfGameManager

theorem countP_map_le (g : PlayerScore → PlayerScore) (q : PlayerScore → Bool)
    (l : List PlayerScore) (hg : ∀ p, q (g p) = true → q p = true) :
    (l.map g).countP q ≤ l.countP q := by
  induction l with
  | nil => simp
  | cons p ps ih =>
    rw [List.map_cons, List.countP_cons, List.countP_cons]
    by_cases hq : q (g p) = true
    · rw [if_pos hq, if_pos (hg p hq)]
      omega
    · rw [if_neg hq]
      by_cases hp : q p = true
      · rw [if_pos hp]; omega
      · rw [if_neg hp]; omega

theorem startPlayerTurn_scalar (s : GameState) :
    (startPlayerTurn s).currentPlayerIndex = s.currentPlayerIndex ∧
    (startPlayerTurn s).currentHole = s.currentHole ∧
    (startPlayerTurn s).gameInProgress = s.gameInProgress ∧
    (startPlayerTurn s).crashed = s.crashed ∧
    (startPlayerTurn s).golfBall = s.golfBall ∧
    (startPlayerTurn s).holes = s.holes := by
  unfold startPlayerTurn
  cases s.players[s.currentPlayerIndex]? <;> exact ⟨rfl, rfl, rfl, rfl, rfl, rfl⟩

theorem startPlayerTurn_length (s : GameState) :
    (startPlayerTurn s).players.length = s.players.length := by
  unfold startPlayerTurn
  cases s.players[s.currentPlayerIndex]?
  · rfl
  · simp [length_mapIdxFrom]

theorem startPlayerTurnF_entityOnly (idx : Nat) (bs : Bool) (j : Nat) (p : PlayerScore) :
    (startPlayerTurnF idx bs j p).pid = p.pid ∧
    (startPlayerTurnF idx bs j p).strokes = p.strokes ∧
    (startPlayerTurnF idx bs j p).totalStrokes = p.totalStrokes := by
  unfold startPlayerTurnF
  split_ifs <;> exact ⟨rfl, rfl, rfl⟩

theorem startPlayerTurn_entityOnly (s : GameState) (j : Nat) :
    ((startPlayerTurn s).players[j]?).map (fun p => (p.pid, p.strokes, p.totalStrokes)) =
      (s.players[j]?).map (fun p => (p.pid, p.strokes, p.totalStrokes)) := by
  unfold startPlayerTurn
  cases s.players[s.currentPlayerIndex]?
  · rfl
  · rw [getElem?_mapIdxFrom, Nat.zero_add]
    cases s.players[j]? with
    | none => rfl
    | some p =>
      obtain ⟨h1, h2, h3⟩ := startPlayerTurnF_entityOnly s.currentPlayerIndex
        s.golfBall.isSome j p
      simp [h1, h2, h3]

theorem inv_startPlayerTurn (s : GameState) (h : Inv s) : Inv (startPlayerTurn s) := by
  obtain ⟨hsc, hfr, hct, hpw⟩ := h
  unfold startPlayerTurn
  cases hcur : s.players[s.currentPlayerIndex]? with
  | none => exact ⟨hsc, hfr, hct, hpw⟩
  | some cur =>
    unfold Inv
    refine ⟨?_, ?_, ?_, ?_⟩
    · intro p hp
      exact forall_mem_mapIdxFrom (fun p => p.totalStrokes = strokesSum p.strokes)
        (fun p => p.totalStrokes = strokesSum p.strokes) _ 0 s.players
        (fun j p _ hq => by
          obtain ⟨_, h2, h3⟩ := startPlayerTurnF_entityOnly s.currentPlayerIndex
            s.golfBall.isSome j p
          rw [h3, h2]; exact hq)
        hsc p hp
    · intro hcr p hp j hj
      exact forall_mem_mapIdxFrom
        (fun p => ∀ j, s.currentHole ≤ j → getStroke p.strokes j = none)
        (fun p => ∀ j, s.currentHole ≤ j → getStroke p.strokes j = none) _ 0 s.players
        (fun i p _ hq => by
          obtain ⟨_, h2, _⟩ := startPlayerTurnF_entityOnly s.currentPlayerIndex
            s.golfBall.isSome i p
          rw [h2]; exact hq)
        (hfr hcr) p hp j hj
    · exact countP_mapIdxFrom_le_one _ _ s.currentPlayerIndex 0 s.players
        (fun j p hj => by unfold startPlayerTurnF; rw [if_neg hj]; rfl)
    · intro p hp
      exact forall_mem_mapIdxFrom (fun p => GolfPlayerEntity.powerOk p.golfEntity)
        (fun p => GolfPlayerEntity.powerOk p.golfEntity) _ 0 s.players
        (fun j p _ hq => by
          unfold startPlayerTurnF
          split_ifs with hji hbs
          · exact GolfPlayerEntity.startTurn_powerOk _
              (GolfPlayerEntity.setGolfBall_powerOk _ hq)
          · exact GolfPlayerEntity.startTurn_powerOk _ hq
          · exact GolfPlayerEntity.endTurn_powerOk _ hq)
        hpw p hp

theorem inv_startHole (s : GameState) (h : Nat)
    (h1 : ∀ p ∈ s.players, p.totalStrokes = strokesSum p.strokes)
    (h2 : ∀ p ∈ s.players, ∀ j, h ≤ j → getStroke p.strokes j = none)
    (h3 : activeTurnCount s ≤ 1)
    (h4 : ∀ p ∈ s.players, GolfPlayerEntity.powerOk p.golfEntity) :
    Inv (startHole s h) := by
  unfold startHole
  cases hh : s.holes[h]? with
  | none =>
    exact ⟨h1, fun hcr => absurd hcr (by simp), h3, h4⟩
  | some hole =>
    exact inv_startPlayerTurn _ ⟨h1, fun _ => h2, h3, h4⟩

theorem inv_nextPlayerTurn (s : GameState) (h : Inv s) : Inv (nextPlayerTurn s) := by
  unfold nextPlayerTurn
  split_ifs with h1 h2
  · exact h
  · exact h
  · exact inv_startPlayerTurn _ h

theorem inv_addPlayer (s : GameState) (pid : String) (h : Inv s) :
    Inv (addPlayer s pid) := by
  obtain ⟨hsc, hfr, hct, hpw⟩ := h
  unfold addPlayer
  split_ifs with h1 h2
  · exact ⟨hsc, hfr, hct, hpw⟩
  · refine ⟨?_, ?_, ?_, ?_⟩
    · intro p hp
      obtain ⟨q, hq, rfl⟩ := List.mem_map.1 hp
      split_ifs
      · rfl
      · exact hsc q hq
    · intro hcr p hp j hj
      obtain ⟨q, hq, rfl⟩ := List.mem_map.1 hp
      split_ifs
      · exact getStroke_nil j
      · exact hfr hcr q hq j hj
    · refine le_trans (countP_map_le _ _ _ ?_) hct
      intro p hp
      split_ifs at hp
      · simp [freshScore, GolfPlayerEntity.freshPlayer] at hp
      · exact hp
    · intro p hp
      obtain ⟨q, hq, rfl⟩ := List.mem_map.1 hp
      split_ifs
      · exact ⟨le_refl 0, by norm_num [freshScore, GolfPlayerEntity.freshPlayer]⟩
      · exact hpw q hq
  · refine ⟨?_, ?_, ?_, ?_⟩
    · intro p hp
      rcases List.mem_append.1 hp with hp | hp
      · exact hsc p hp
      · rw [List.mem_singleton.1 hp]; rfl
    · intro hcr p hp j hj
      rcases List.mem_append.1 hp with hp | hp
      · exact hfr hcr p hp j hj
      · rw [List.mem_singleton.1 hp]; exact getStroke_nil j
    · show List.countP (fun p => p.golfEntity.isPlayerTurn)
        (s.players ++ [freshScore pid]) ≤ 1
      rw [List.countP_append]
      have hct2 : List.countP (fun p => p.golfEntity.isPlayerTurn) s.players ≤ 1 := hct
      have hz : List.countP (fun p => p.golfEntity.isPlayerTurn) [freshScore pid] = 0 := by
        simp [freshScore, GolfPlayerEntity.freshPlayer]
      omega
    · intro p hp
      rcases List.mem_append.1 hp with hp | hp
      · exact hpw p hp
      · rw [List.mem_singleton.1 hp]
        exact ⟨le_refl 0, by norm_num [freshScore, GolfPlayerEntity.freshPlayer]⟩

theorem inv_removePlayer (s : GameState) (pid : String) (h : Inv s) :
    Inv (removePlayer s pid) := by
  obtain ⟨hsc, hfr, hct, hpw⟩ := h
  have hfil : Inv (removedState s pid) := by
    refine ⟨?_, ?_, ?_, ?_⟩
    · intro p hp
      exact hsc p (List.mem_of_mem_filter hp)
    · intro hcr p hp j hj
      exact hfr hcr p (List.mem_of_mem_filter hp) j hj
    · exact le_trans ((List.filter_sublist _).countP_le _) hct
    · intro p hp
      exact hpw p (List.mem_of_mem_filter hp)
  unfold removePlayer
  split_ifs with h1 h2
  · exact ⟨hsc, hfr, hct, hpw⟩
  · exact inv_nextPlayerTurn _ hfil
  · exact hfil

theorem inv_startGame (s : GameState) (h : Inv s) : Inv (startGame s) := by
  obtain ⟨hsc, hfr, hct, hpw⟩ := h
  unfold startGame
  split_ifs with h1 h2
  · exact ⟨hsc, hfr, hct, hpw⟩
  · exact ⟨hsc, hfr, hct, hpw⟩
  · refine inv_startHole _ 0 ?_ ?_ ?_ ?_
    · intro p hp
      obtain ⟨q, hq, rfl⟩ := List.mem_map.1 hp
      rfl
    · intro p hp j hj
      obtain ⟨q, hq, rfl⟩ := List.mem_map.1 hp
      exact getStroke_nil j
    · exact le_trans (countP_map_le _ _ _ (fun p hp => hp)) hct
    · intro p hp
      obtain ⟨q, hq, rfl⟩ := List.mem_map.1 hp
      exact hpw q hq

theorem inv_endedState (s : GameState) (h : Inv s) : Inv (endedState s) := by
  obtain ⟨hsc, hfr, hct, hpw⟩ := h
  unfold endedState
  cases s.players[s.currentPlayerIndex]? with
  | none => exact ⟨hsc, hfr, hct, hpw⟩
  | some cur =>
    refine ⟨?_, ?_, ?_, ?_⟩
    · intro p hp
      exact forall_mem_mapIdxFrom (fun p => p.totalStrokes = strokesSum p.strokes)
        (fun p => p.totalStrokes = strokesSum p.strokes) _ 0 s.players
        (fun j p _ hq => by unfold endTurnAtF; split_ifs <;> exact hq) hsc p hp
    · intro hcr p hp j hj
      exact forall_mem_mapIdxFrom
        (fun p => ∀ j, s.currentHole ≤ j → getStroke p.strokes j = none)
        (fun p => ∀ j, s.currentHole ≤ j → getStroke p.strokes j = none) _ 0 s.players
        (fun i p _ hq => by unfold endTurnAtF; split_ifs <;> exact hq) (hfr hcr) p hp j hj
    · refine le_trans (countP_mapIdxFrom_le _ _ 0 s.players ?_) hct
      intro j p htr
      unfold endTurnAtF at htr
      split_ifs at htr
      · simp [GolfPlayerEntity.endTurn] at htr
      · exact htr
    · intro p hp
      exact forall_mem_mapIdxFrom (fun p => GolfPlayerEntity.powerOk p.golfEntity)
        (fun p => GolfPlayerEntity.powerOk p.golfEntity) _ 0 s.players
        (fun j p _ hq => by
          unfold endTurnAtF
          split_ifs
          · exact GolfPlayerEntity.endTurn_powerOk _ hq
          · exact hq) hpw p hp

theorem inv_endGame (s : GameState) (h : Inv s) : Inv (endGame s) := by
  have hinv := h
  obtain ⟨hsc, hfr, hct, hpw⟩ := h
  unfold endGame
  split_ifs with h1 h2
  · exact ⟨hsc, hfr, hct, hpw⟩
  · exact ⟨hsc, hfr, hct, hpw⟩
  · obtain ⟨e1, e2, e3, e4⟩ := inv_endedState s hinv
    cases (calculateFinalScores (endedState s)).head? with
    | none => exact ⟨e1, fun hcr => absurd hcr (by simp), e3, e4⟩
    | some w => exact ⟨e1, e2, e3, e4⟩

theorem inv_penalizedState (s : GameState) (h : Inv s) : Inv (penalizedState s) := by
  obtain ⟨hsc, hfr, hct, hpw⟩ := h
  unfold penalizedState
  refine ⟨?_, ?_, ?_, ?_⟩
  · intro p hp
    exact forall_mem_mapIdxFrom (fun p => p.totalStrokes = strokesSum p.strokes)
      (fun p => p.totalStrokes = strokesSum p.strokes) _ 0 s.players
      (fun j p _ hq => by unfold penaltyF; split_ifs <;> exact hq) hsc p hp
  · intro hcr p hp j hj
    exact forall_mem_mapIdxFrom
      (fun p => ∀ j, s.currentHole ≤ j → getStroke p.strokes j = none)
      (fun p => ∀ j, s.currentHole ≤ j → getStroke p.strokes j = none) _ 0 s.players
      (fun i p _ hq => by unfold penaltyF; split_ifs <;> exact hq) (hfr hcr) p hp j hj
  · refine le_trans (countP_mapIdxFrom_le _ _ 0 s.players ?_) hct
    intro j p htr
    unfold penaltyF at htr
    split_ifs at htr <;> exact htr
  · intro p hp
    exact forall_mem_mapIdxFrom (fun p => GolfPlayerEntity.powerOk p.golfEntity)
      (fun p => GolfPlayerEntity.powerOk p.golfEntity) _ 0 s.players
      (fun j p _ hq => by unfold penaltyF; split_ifs <;> exact ⟨hq.1, hq.2⟩) hpw p hp

theorem inv_handleWaterHazard (s : GameState) (h : Inv s) : Inv (handleWaterHazard s) := by
  have hinv := h
  obtain ⟨hsc, hfr, hct, hpw⟩ := h
  unfold handleWaterHazard
  split_ifs with h1
  · exact ⟨hsc, hfr, hct, hpw⟩
  · cases getCurrentPlayer s with
    | none => exact ⟨hsc, hfr, hct, hpw⟩
    | some cur =>
      obtain ⟨p1, p2, p3, p4⟩ := inv_penalizedState s hinv
      cases s.holes[s.currentHole]? with
      | none => exact ⟨p1, fun hcr => absurd hcr (by simp), p3, p4⟩
      | some hole => exact ⟨p1, p2, p3, p4⟩

theorem inv_handleBallInHole (s : GameState) (h : Inv s) : Inv (handleBallInHole s) := by
  obtain ⟨hsc, hfr, hct, hpw⟩ := h
  unfold handleBallInHole
  split_ifs with h1 h2
  · exact ⟨hsc, hfr, hct, hpw⟩
  · exact ⟨hsc, hfr, hct, hpw⟩
  · cases hcur : getCurrentPlayer s with
    | none => exact ⟨hsc, hfr, hct, hpw⟩
    | some cur =>
      have hc0 : s.crashed = false := by simpa using h1
      have hQ : ∀ p ∈ s.players, p.totalStrokes = strokesSum p.strokes ∧
          ∀ j, s.currentHole ≤ j → getStroke p.strokes j = none :=
        fun p hp => ⟨hsc p hp, hfr hc0 p hp⟩
      have hP : ∀ p' ∈ (recordedState s cur).players,
          p'.totalStrokes = strokesSum p'.strokes ∧
          ∀ j, s.currentHole + 1 ≤ j → getStroke p'.strokes j = none := by
        intro p' hp'
        unfold recordedState at hp'
        refine forall_mem_mapIdxFrom
          (fun p => p.totalStrokes = strokesSum p.strokes ∧
            ∀ j, s.currentHole + 1 ≤ j → getStroke p.strokes j = none)
          (fun p => p.totalStrokes = strokesSum p.strokes ∧
            ∀ j, s.currentHole ≤ j → getStroke p.strokes j = none)
          _ 0 s.players ?_ hQ p' hp'
        intro j p _ hq
        unfold recordScoreF
        split_ifs with hji
        · constructor
          · show p.totalStrokes + GolfPlayerEntity.getScore cur.golfEntity =
              strokesSum (setStroke p.strokes s.currentHole
                (GolfPlayerEntity.getScore cur.golfEntity))
            rw [strokesSum_setStroke _ _ _ (hq.2 s.currentHole (le_refl _)), hq.1]
          · intro j2 hj2
            show getStroke (setStroke p.strokes s.currentHole
              (GolfPlayerEntity.getScore cur.golfEntity)) j2 = none
            rw [getStroke_setStroke, if_neg (by omega)]
            exact hq.2 j2 (by omega)
        · exact ⟨hq.1, fun j2 hj2 => hq.2 j2 (by omega)⟩
      have hcount : activeTurnCount (recordedState s cur) ≤ 1 := by
        refine le_trans (countP_mapIdxFrom_le _ _ 0 s.players ?_) hct
        intro j p htr
        unfold recordScoreF at htr
        split_ifs at htr <;> exact htr
      have hpow : ∀ p ∈ (recordedState s cur).players,
          GolfPlayerEntity.powerOk p.golfEntity := by
        intro p hp
        unfold recordedState at hp
        refine forall_mem_mapIdxFrom (fun p => GolfPlayerEntity.powerOk p.golfEntity)
          (fun p => GolfPlayerEntity.powerOk p.golfEntity) _ 0 s.players ?_ hpw p hp
        intro j p _ hq
        unfold recordScoreF
        split_ifs <;> exact hq
      cases s.holes[s.currentHole]? with
      | none =>
        exact ⟨fun p hp => (hP p hp).1, fun hcr => absurd hcr (by simp), hcount, hpow⟩
      | some _ =>
        exact inv_startHole _ _ (fun p hp => (hP p hp).1) (fun p hp => (hP p hp).2)
          hcount hpow

theorem inv_playerTick (s : GameState) (i : Nat) (inp : Input) (h : Inv s) :
    Inv (playerTick s i inp) := by
  obtain ⟨hsc, hfr, hct, hpw⟩ := h
  unfold playerTick
  split_ifs with h1
  · exact ⟨hsc, hfr, hct, hpw⟩
  · cases s.players[i]? with
    | none => exact ⟨hsc, hfr, hct, hpw⟩
    | some p =>
      refine ⟨?_, ?_, ?_, ?_⟩
      · intro q hq
        exact forall_mem_mapIdxFrom (fun p => p.totalStrokes = strokesSum p.strokes)
          (fun p => p.totalStrokes = strokesSum p.strokes) _ 0 s.players
          (fun j q _ hq2 => by unfold tickF; split_ifs <;> exact hq2) hsc q hq
      · intro hcr q hq j hj
        exact forall_mem_mapIdxFrom
          (fun p => ∀ j, s.currentHole ≤ j → getStroke p.strokes j = none)
          (fun p => ∀ j, s.currentHole ≤ j → getStroke p.strokes j = none) _ 0 s.players
          (fun i2 q _ hq2 => by unfold tickF; split_ifs <;> exact hq2) (hfr hcr) q hq j hj
      · refine le_trans (countP_mapIdxFrom_le _ _ 0 s.players ?_) hct
        intro j q htr
        unfold tickF at htr
        split_ifs at htr
        · have htr2 : ((GolfPlayerEntity.golfControlsTick inp q.golfEntity).1).isPlayerTurn
              = true := htr
          rwa [GolfPlayerEntity.golfControlsTick_isPlayerTurn] at htr2
        · exact htr
      · intro q hq
        exact forall_mem_mapIdxFrom (fun p => GolfPlayerEntity.powerOk p.golfEntity)
          (fun p => GolfPlayerEntity.powerOk p.golfEntity) _ 0 s.players
          (fun j q _ hq2 => by
            unfold tickF
            split_ifs
            · exact GolfPlayerEntity.golfControlsTick_powerOk inp _ hq2
            · exact hq2) hpw q hq

theorem inv_ballPhysics (s : GameState) (pos vel avel : Vec3) (h : Inv s) :
    Inv (ballPhysics s pos vel avel) := by
  obtain ⟨hsc, hfr, hct, hpw⟩ := h
  unfold ballPhysics
  split_ifs with h1
  · exact ⟨hsc, hfr, hct, hpw⟩
  · cases s.golfBall with
    | none => exact ⟨hsc, hfr, hct, hpw⟩
    | some b =>
      split
      all_goals first
        | (split_ifs <;> exact ⟨hsc, hfr, hct, hpw⟩)
        | exact ⟨hsc, hfr, hct, hpw⟩

theorem inv_init : Inv initialState := by
  refine ⟨?_, ?_, ?_, ?_⟩
  · intro p hp
    simp [initialState] at hp
  · intro hcr p hp j hj
    simp [initialState] at hp
  · simp [activeTurnCount, initialState]
  · intro p hp
    simp [initialState] at hp

theorem inv_orderlyReachable (s : GameState) (h : OrderlyReachable s) : Inv s := by
  unfold OrderlyReachable at h
  induction h with
  | refl => exact inv_init
  | tail hr hstep ih =>
    cases hstep with
    | add pid => exact inv_addPlayer _ pid ih
    | remove pid => exact inv_removePlayer _ pid ih
    | start => exact inv_startGame _ ih
    | finish => exact inv_endGame _ ih
    | holeEvent => exact inv_handleBallInHole _ ih
    | waterEvent => exact inv_handleWaterHazard _ ih
    | advance => exact inv_nextPlayerTurn _ ih
    | tick i inp => exact inv_playerTick _ i inp ih
    | physics pos vel avel => exact inv_ballPhysics _ pos vel avel ih

/-! ## The safety components over the full step relation -/

theorem safeInv_startPlayerTurn (s : GameState) (h : SafeInv s) :
    SafeInv (startPlayerTurn s) := by
  obtain ⟨hct, hpw⟩ := h
  unfold startPlayerTurn
  cases hcur : s.players[s.currentPlayerIndex]? with
  | none => exact ⟨hct, hpw⟩
  | some cur =>
    refine ⟨?_, ?_⟩
    · exact countP_mapIdxFrom_le_one _ _ s.currentPlayerIndex 0 s.players
        (fun j p hj => by unfold startPlayerTurnF; rw [if_neg hj]; rfl)
    · intro p hp
      exact forall_mem_mapIdxFrom (fun p => GolfPlayerEntity.powerOk p.golfEntity)
        (fun p => GolfPlayerEntity.powerOk p.golfEntity) _ 0 s.players
        (fun j p _ hq => by
          unfold startPlayerTurnF
          split_ifs with hji hbs
          · exact GolfPlayerEntity.startTurn_powerOk _
              (GolfPlayerEntity.setGolfBall_powerOk _ hq)
          · exact GolfPlayerEntity.startTurn_powerOk _ hq
          · exact GolfPlayerEntity.endTurn_powerOk _ hq)
        hpw p hp

theorem safeInv_startHole (s : GameState) (h : Nat) (hs : SafeInv s) :
    SafeInv (startHole s h) := by
  unfold startHole
  cases hh : s.holes[h]? with
  | none => exact hs
  | some hole => exact safeInv_startPlayerTurn _ hs

theorem safeInv_nextPlayerTurn (s : GameState) (h : SafeInv s) :
    SafeInv (nextPlayerTurn s) := by
  unfold nextPlayerTurn
  split_ifs with h1 h2
  · exact h
  · exact h
  · exact safeInv_startPlayerTurn _ h

theorem safeInv_addPlayer (s : GameState) (pid : String) (h : SafeInv s) :
    SafeInv (addPlayer s pid) := by
  obtain ⟨hct, hpw⟩ := h
  unfold addPlayer
  split_ifs with h1 h2
  · exact ⟨hct, hpw⟩
  · refine ⟨?_, ?_⟩
    · refine le_trans (countP_map_le _ _ _ ?_) hct
      intro p hp
      split_ifs at hp
      · simp [freshScore, GolfPlayerEntity.freshPlayer] at hp
      · exact hp
    · intro p hp
      obtain ⟨q, hq, rfl⟩ := List.mem_map.1 hp
      split_ifs
      · exact ⟨le_refl 0, by norm_num [freshScore, GolfPlayerEntity.freshPlayer]⟩
      · exact hpw q hq
  · refine ⟨?_, ?_⟩
    · show List.countP (fun p => p.golfEntity.isPlayerTurn)
        (s.players ++ [freshScore pid]) ≤ 1
      rw [List.countP_append]
      have hct2 : List.countP (fun p => p.golfEntity.isPlayerTurn) s.players ≤ 1 := hct
      have hz : List.countP (fun p => p.golfEntity.isPlayerTurn) [freshScore pid] = 0 := by
        simp [freshScore, GolfPlayerEntity.freshPlayer]
      omega
    · intro p hp
      rcases List.mem_append.1 hp with hp | hp
      · exact hpw p hp
      · rw [List.mem_singleton.1 hp]
        exact ⟨le_refl 0, by norm_num [freshScore, GolfPlayerEntity.freshPlayer]⟩

theorem safeInv_removePlayer (s : GameState) (pid : String) (h : SafeInv s) :
    SafeInv (removePlayer s pid) := by
  obtain ⟨hct, hpw⟩ := h
  have hfil : SafeInv (removedState s pid) := by
    refine ⟨?_, ?_⟩
    · exact le_trans ((List.filter_sublist _).countP_le _) hct
    · intro p hp
      exact hpw p (List.mem_of_mem_filter hp)
  unfold removePlayer
  split_ifs with h1 h2
  · exact ⟨hct, hpw⟩
  · exact safeInv_nextPlayerTurn _ hfil
  · exact hfil

theorem safeInv_startGame (s : GameState) (h : SafeInv s) : SafeInv (startGame s) := by
  obtain ⟨hct, hpw⟩ := h
  unfold startGame
  split_ifs with h1 h2
  · exact ⟨hct, hpw⟩
  · exact ⟨hct, hpw⟩
  · refine safeInv_startHole _ 0 ⟨?_, ?_⟩
    · exact le_trans (countP_map_le _ _ _ (fun p hp => hp)) hct
    · intro p hp
      obtain ⟨q, hq, rfl⟩ := List.mem_map.1 hp
      exact hpw q hq

theorem safeInv_endedState (s : GameState) (h : SafeInv s) : SafeInv (endedState s) := by
  obtain ⟨hct, hpw⟩ := h
  unfold endedState
  cases s.players[s.currentPlayerIndex]? with
  | none => exact ⟨hct, hpw⟩
  | some cur =>
    refine ⟨?_, ?_⟩
    · refine le_trans (countP_mapIdxFrom_le _ _ 0 s.players ?_) hct
      intro j p htr
      unfold endTurnAtF at htr
      split_ifs at htr
      · simp [GolfPlayerEntity.endTurn] at htr
      · exact htr
    · intro p hp
      exact forall_mem_mapIdxFrom (fun p => GolfPlayerEntity.powerOk p.golfEntity)
        (fun p => GolfPlayerEntity.powerOk p.golfEntity) _ 0 s.players
        (fun j p _ hq => by
          unfold endTurnAtF
          split_ifs
          · exact GolfPlayerEntity.endTurn_powerOk _ hq
          · exact hq) hpw p hp

theorem safeInv_endGame (s : GameState) (h : SafeInv s) : SafeInv (endGame s) := by
  have hinv := h
  obtain ⟨hct, hpw⟩ := h
  unfold endGame
  split_ifs with h1 h2
  · exact ⟨hct, hpw⟩
  · exact ⟨hct, hpw⟩
  · obtain ⟨e3, e4⟩ := safeInv_endedState s hinv
    cases (calculateFinalScores (endedState s)).head? with
    | none => exact ⟨e3, e4⟩
    | some w => exact ⟨e3, e4⟩

theorem safeInv_penalizedState (s : GameState) (h : SafeInv s) :
    SafeInv (penalizedState s) := by
  obtain ⟨hct, hpw⟩ := h
  unfold penalizedState
  refine ⟨?_, ?_⟩
  · refine le_trans (countP_mapIdxFrom_le _ _ 0 s.players ?_) hct
    intro j p htr
    unfold penaltyF at htr
    split_ifs at htr <;> exact htr
  · intro p hp
    exact forall_mem_mapIdxFrom (fun p => GolfPlayerEntity.powerOk p.golfEntity)
      (fun p => GolfPlayerEntity.powerOk p.golfEntity) _ 0 s.players
      (fun j p _ hq => by unfold penaltyF; split_ifs <;> exact ⟨hq.1, hq.2⟩) hpw p hp

theorem safeInv_handleWaterHazard (s : GameState) (h : SafeInv s) :
    SafeInv (handleWaterHazard s) := by
  have hinv := h
  obtain ⟨hct, hpw⟩ := h
  unfold handleWaterHazard
  split_ifs with h1
  · exact ⟨hct, hpw⟩
  · cases getCurrentPlayer s with
    | none => exact ⟨hct, hpw⟩
    | some cur =>
      obtain ⟨p3, p4⟩ := safeInv_penalizedState s hinv
      cases s.holes[s.currentHole]? with
      | none => exact ⟨p3, p4⟩
      | some hole => exact ⟨p3, p4⟩

theorem safeInv_recordedState (s : GameState) (cur : PlayerScore) (h : SafeInv s) :
    SafeInv (recordedState s cur) := by
  obtain ⟨hct, hpw⟩ := h
  unfold recordedState
  refine ⟨?_, ?_⟩
  · refine le_trans (countP_mapIdxFrom_le _ _ 0 s.players ?_) hct
    intro j p htr
    unfold recordScoreF at htr
    split_ifs at htr <;> exact htr
  · intro p hp
    exact forall_mem_mapIdxFrom (fun p => GolfPlayerEntity.powerOk p.golfEntity)
      (fun p => GolfPlayerEntity.powerOk p.golfEntity) _ 0 s.players
      (fun j p _ hq => by unfold recordScoreF; split_ifs <;> exact hq) hpw p hp

theorem safeInv_handleBallInHoleRecord (s : GameState) (h : SafeInv s) :
    SafeInv (handleBallInHoleRecord s) := by
  have hinv := h
  obtain ⟨hct, hpw⟩ := h
  unfold handleBallInHoleRecord
  split_ifs with h1 h2
  · exact ⟨hct, hpw⟩
  · exact ⟨hct, hpw⟩
  · cases hcur : getCurrentPlayer s with
    | none => exact ⟨hct, hpw⟩
    | some cur =>
      obtain ⟨r3, r4⟩ := safeInv_recordedState s cur hinv
      cases s.holes[s.currentHole]? with
      | none => exact ⟨r3, r4⟩
      | some hole => exact ⟨r3, r4⟩

theorem safeInv_deferredHoleStart (s : GameState) (h : SafeInv s) :
    SafeInv (deferredHoleStart s) := by
  unfold deferredHoleStart
  split_ifs with h1
  · exact h
  · exact safeInv_startHole _ _ h

theorem safeInv_playerTick (s : GameState) (i : Nat) (inp : Input) (h : SafeInv s) :
    SafeInv (playerTick s i inp) := by
  obtain ⟨hct, hpw⟩ := h
  unfold playerTick
  split_ifs with h1
  · exact ⟨hct, hpw⟩
  · cases s.players[i]? with
    | none => exact ⟨hct, hpw⟩
    | some p =>
      refine ⟨?_, ?_⟩
      · refine le_trans (countP_mapIdxFrom_le _ _ 0 s.players ?_) hct
        intro j q htr
        unfold tickF at htr
        split_ifs at htr
        · have htr2 : ((GolfPlayerEntity.golfControlsTick inp q.golfEntity).1).isPlayerTurn
              = true := htr
          rwa [GolfPlayerEntity.golfControlsTick_isPlayerTurn] at htr2
        · exact htr
      · intro q hq
        exact forall_mem_mapIdxFrom (fun p => GolfPlayerEntity.powerOk p.golfEntity)
          (fun p => GolfPlayerEntity.powerOk p.golfEntity) _ 0 s.players
          (fun j q _ hq2 => by
            unfold tickF
            split_ifs
            · exact GolfPlayerEntity.golfControlsTick_powerOk inp _ hq2
            · exact hq2) hpw q hq

theorem safeInv_ballPhysics (s : GameState) (pos vel avel : Vec3) (h : SafeInv s) :
    SafeInv (ballPhysics s pos vel avel) := by
  obtain ⟨hct, hpw⟩ := h
  unfold ballPhysics
  split_ifs with h1
  · exact ⟨hct, hpw⟩
  · cases s.golfBall with
    | none => exact ⟨hct, hpw⟩
    | some b =>
      split
      all_goals first
        | (split_ifs <;> exact ⟨hct, hpw⟩)
        | exact ⟨hct, hpw⟩

theorem safeInv_init : SafeInv initialState := by
  refine ⟨?_, ?_⟩
  · simp [activeTurnCount, initialState]
  · intro p hp
    simp [initialState] at hp

theorem safeInv_reachable (s : GameState) (h : Reachable s) : SafeInv s := by
  unfold Reachable at h
  induction h with
  | refl => exact safeInv_init
  | tail hr hstep ih =>
    cases hstep with
    | add pid => exact safeInv_addPlayer _ pid ih
    | remove pid => exact safeInv_removePlayer _ pid ih
    | start => exact safeInv_startGame _ ih
    | finish => exact safeInv_endGame _ ih
    | holeRecord => exact safeInv_handleBallInHoleRecord _ ih
    | holeTimer => exact safeInv_deferredHoleStart _ ih
    | waterEvent => exact safeInv_handleWaterHazard _ ih
    | advance => exact safeInv_nextPlayerTurn _ ih
    | tick i inp => exact safeInv_playerTick _ i inp ih
    | physics pos vel avel => exact safeInv_ballPhysics _ pos vel avel ih

/-- On the armed path (alive, in progress, current player present) the
composite handleBallInHole is exactly the recording step followed by the
deferred hole start. -/
theorem handleBallInHole_split (s : GameState) (cur : PlayerScore)
    (hc : s.crashed = false) (hg : s.gameInProgress = true)
    (hcur : getCurrentPlayer s = some cur) :
    handleBallInHole s = deferredHoleStart (handleBallInHoleRecord s) := by
  unfold handleBallInHole handleBallInHoleRecord
  rw [hc, hg, hcur]
  cases hh : s.holes[s.currentHole]? with
  | none => rfl
  | some hole =>
    show startHole (recordedState s cur) (s.currentHole + 1) =
      deferredHoleStart (recordedState s cur)
    unfold deferredHoleStart
    have hcr : (recordedState s cur).crashed = false := hc
    rw [hcr]
    rfl

/-! ## Round-robin turn order -/

theorem startPlayerTurn_pid (s : GameState) (j : Nat) :
    ((startPlayerTurn s).players[j]?).map (fun p => p.pid) =
      (s.players[j]?).map (fun p => p.pid) := by
  unfold startPlayerTurn
  cases s.players[s.currentPlayerIndex]?
  · rfl
  · rw [getElem?_mapIdxFrom, Nat.zero_add]
    cases s.players[j]? with
    | none => rfl
    | some p =>
      obtain ⟨h1, _, _⟩ := startPlayerTurnF_entityOnly s.currentPlayerIndex
        s.golfBall.isSome j p
      simp [h1]

theorem ballMoving_congr (s1 s2 : GameState) (h : s1.golfBall = s2.golfBall) :
    ballMoving s1 = ballMoving s2 := by
  unfold ballMoving
  rw [h]

theorem nextPlayerTurn_preserves (s : GameState) (hc : s.crashed = false)
    (hb : ballMoving s = false) :
    (nextPlayerTurn s).crashed = false ∧
    (nextPlayerTurn s).golfBall = s.golfBall ∧
    (nextPlayerTurn s).players.length = s.players.length ∧
    (nextPlayerTurn s).currentPlayerIndex =
      (s.currentPlayerIndex + 1) % s.players.length ∧
    ∀ j : Nat, ((nextPlayerTurn s).players[j]?).map (fun p : PlayerScore => p.pid) =
      (s.players[j]?).map (fun p : PlayerScore => p.pid) := by
  unfold nextPlayerTurn
  split_ifs with h1 h2
  · exact absurd h1 (by simp [hc])
  · exact absurd h2 (by simp [hb])
  · obtain ⟨hidx, hhole, hprog, hcr, hball, hholes⟩ :=
      startPlayerTurn_scalar
        { s with currentPlayerIndex := (s.currentPlayerIndex + 1) % s.players.length }
    refine ⟨?_, ?_, ?_, ?_, ?_⟩
    · rw [hcr]; exact hc
    · rw [hball]
    · rw [startPlayerTurn_length]
    · rw [hidx]
    · intro j
      rw [startPlayerTurn_pid]

theorem nextPlayerTurn_iter (s : GameState) (hc : s.crashed = false)
    (hb : ballMoving s = false) (m : Nat) :
    (nextPlayerTurn^[m] s).crashed = false ∧
    (nextPlayerTurn^[m] s).golfBall = s.golfBall ∧
    (nextPlayerTurn^[m] s).players.length = s.players.length ∧
    (∀ j : Nat, ((nextPlayerTurn^[m] s).players[j]?).map (fun p : PlayerScore => p.pid) =
      (s.players[j]?).map (fun p : PlayerScore => p.pid)) ∧
    (0 < m → (nextPlayerTurn^[m] s).currentPlayerIndex =
      (s.currentPlayerIndex + m) % s.players.length) := by
  induction m with
  | zero => exact ⟨hc, rfl, rfl, fun j => rfl, fun h => absurd h (by omega)⟩
  | succ m ih =>
    obtain ⟨ic, ib, il, ip, ii⟩ := ih
    have hbm : ballMoving (nextPlayerTurn^[m] s) = false := by
      rw [ballMoving_congr _ s ib]; exact hb
    obtain ⟨pc, pb, pl, pi, pp⟩ := nextPlayerTurn_preserves (nextPlayerTurn^[m] s) ic hbm
    rw [Function.iterate_succ_apply']
    refine ⟨pc, pb.trans ib, pl.trans il, fun j => (pp j).trans (ip j), fun _ => ?_⟩
    rw [pi, il]
    rcases Nat.eq_zero_or_pos m with hm | hm
    · subst hm
      rfl
    · rw [ii hm, Nat.mod_add_mod]
      congr 1

theorem mod_cycle_unique (n a j : Nat) (hn : 0 < n) (hj : j < n) :
    ∃! k, k < n ∧ (a + (k + 1)) % n = j := by
  have hr : (a + 1) % n < n := Nat.mod_lt _ hn
  have key : ∀ k, (a + (k + 1)) % n = ((a + 1) % n + k) % n := by
    intro k
    rw [Nat.mod_add_mod]
    congr 1
    omega
  have hex : ∃ k, k < n ∧ (a + (k + 1)) % n = j := by
    rcases le_or_lt ((a + 1) % n) j with hle | hlt
    · refine ⟨j - (a + 1) % n, by omega, ?_⟩
      rw [key]
      have : (a + 1) % n + (j - (a + 1) % n) = j := by omega
      rw [this, Nat.mod_eq_of_lt hj]
    · refine ⟨n + j - (a + 1) % n, by omega, ?_⟩
      rw [key]
      have : (a + 1) % n + (n + j - (a + 1) % n) = n + j := by omega
      rw [this, Nat.add_mod_left, Nat.mod_eq_of_lt hj]
  obtain ⟨k0, hk0⟩ := hex
  refine ⟨k0, hk0, ?_⟩
  intro y hy
  have h1 : ((a + 1) % n + y) % n = ((a + 1) % n + k0) % n := by
    rw [← key, ← key, hy.2, hk0.2]
  have h2 : y ≡ k0 [MOD n] := Nat.ModEq.add_left_cancel' ((a + 1) % n) h1
  have h3 : y % n = k0 % n := h2
  rw [Nat.mod_eq_of_lt hy.1, Nat.mod_eq_of_lt hk0.1] at h3
  exact h3

/-! ## Sorting and scores -/

theorem sorted_calculateFinalScores (s : GameState) :
    List.Sorted scoreLE (calculateFinalScores s) :=
  List.sorted_insertionSort scoreLE s.players

theorem perm_calculateFinalScores (s : GameState) :
    (calculateFinalScores s).Perm s.players :=
  List.perm_insertionSort scoreLE s.players

theorem sorted_calculateCurrentLeaderboard (s : GameState) :
    List.Sorted rowLE (calculateCurrentLeaderboard s) := by
  unfold calculateCurrentLeaderboard
  exact List.sorted_insertionSort rowLE _

theorem head_calculateFinalScores_min (s : GameState) (w : PlayerScore)
    (hw : (calculateFinalScores s).head? = some w) :
    ∀ q ∈ s.players, w.totalStrokes ≤ q.totalStrokes := by
  intro q hq
  have hperm := perm_calculateFinalScores s
  have hq2 : q ∈ calculateFinalScores s := hperm.mem_iff.2 hq
  have hs := sorted_calculateFinalScores s
  cases hcons : calculateFinalScores s with
  | nil =>
    rw [hcons] at hq2
    simp at hq2
  | cons x xs =>
    rw [hcons] at hw hq2 hs
    simp only [List.head?_cons, Option.some_inj] at hw
    subst hw
    rcases List.mem_cons.1 hq2 with h | h
    · exact h ▸ Nat.le_refl _
    · exact List.rel_of_sorted_cons hs q h

/-! ## Turn events and the shot count -/

theorem runTurnEvents_shotCount (evs : List TurnEvent) (e : GolfPlayerEntity) :
    ((runTurnEvents e evs).1).shotCount =
      e.shotCount + (runTurnEvents e evs).2 + countPenalties evs := by
  induction evs generalizing e with
  | nil => simp [runTurnEvents, countPenalties]
  | cons ev rest ih =>
    cases ev with
    | tickEv inp =>
      have h1 := GolfPlayerEntity.golfControlsTick_shotCount inp e
      have h2 := ih ((GolfPlayerEntity.golfControlsTick inp e).1)
      have hfst : (runTurnEvents e (TurnEvent.tickEv inp :: rest)).1 =
          (runTurnEvents ((GolfPlayerEntity.golfControlsTick inp e).1) rest).1 := rfl
      have hsnd : (runTurnEvents e (TurnEvent.tickEv inp :: rest)).2 =
          (if (GolfPlayerEntity.golfControlsTick inp e).2.isSome then 1 else 0) +
          (runTurnEvents ((GolfPlayerEntity.golfControlsTick inp e).1) rest).2 := rfl
      have hcp : countPenalties (TurnEvent.tickEv inp :: rest) = countPenalties rest := by
        simp [countPenalties]
      rw [hfst, hsnd, hcp, h2, h1]
      by_cases hs : (GolfPlayerEntity.golfControlsTick inp e).2.isSome = true <;>
        simp only [hs, if_pos, if_neg, if_true, if_false] <;> omega
    | penaltyEv =>
      have h2 := ih { e with shotCount := e.shotCount + 1 }
      have hfst : (runTurnEvents e (TurnEvent.penaltyEv :: rest)).1 =
          (runTurnEvents { e with shotCount := e.shotCount + 1 } rest).1 := rfl
      have hsnd : (runTurnEvents e (TurnEvent.penaltyEv :: rest)).2 =
          (runTurnEvents { e with shotCount := e.shotCount + 1 } rest).2 := rfl
      have hcp : countPenalties (TurnEvent.penaltyEv :: rest) = countPenalties rest + 1 := by
        simp [countPenalties]
      rw [hfst, hsnd, hcp, h2]
      have hshot : ({ e with shotCount := e.shotCount + 1 } :
          GolfPlayerEntity).shotCount = e.shotCount + 1 := rfl
      rw [hshot]
      omega

/-! ## Per-index strokes transport -/

theorem startPlayerTurn_strokes (s : GameState) (j : Nat) :
    ((startPlayerTurn s).players[j]?).map (fun p : PlayerScore => p.strokes) =
      (s.players[j]?).map (fun p : PlayerScore => p.strokes) := by
  unfold startPlayerTurn
  cases s.players[s.currentPlayerIndex]?
  · rfl
  · rw [getElem?_mapIdxFrom, Nat.zero_add]
    cases s.players[j]? with
    | none => rfl
    | some p =>
      obtain ⟨_, h2, _⟩ := startPlayerTurnF_entityOnly s.currentPlayerIndex
        s.golfBall.isSome j p
      simp [h2]

theorem startHole_strokes (s : GameState) (h : Nat) (j : Nat) :
    ((startHole s h).players[j]?).map (fun p : PlayerScore => p.strokes) =
      (s.players[j]?).map (fun p : PlayerScore => p.strokes) := by
  unfold startHole
  cases s.holes[h]?
  · rfl
  · exact startPlayerTurn_strokes _ j

/-! ## Claim theorems -/

/-- C1.  Hole progression breaks on the last hole: with the default three-hole
course, when the ball enters the hole while the game is on hole index 2, the
manager records the current players strokes (total 9 + 3 = 12, per-hole entry
some 3 at index 2), but the delayed _startHole(3) call evaluates
this._endGame(), a method that does not exist, so the process crashes with a
TypeError and the game never ends: gameInProgress is still true.  This
contradicts the intended hole progression, under which completing the last
hole ends the game. -/
theorem lastHole_crash :
    (handleBallInHole lastHoleState).crashed = true ∧
    (handleBallInHole lastHoleState).gameInProgress = true ∧
    (handleBallInHole lastHoleState).players.map
      (fun p => (p.totalStrokes, getStroke p.strokes 2)) = [(12, some 3)] :=
  ⟨rfl, rfl, rfl⟩

/-- C2.  Round-robin turn order: a turn advance with the ball at rest bumps
the current player index by exactly one modulo the number of registered
players; for a roster of n players, among the states after 1..n consecutive
advances every index j is current exactly once, and whenever an index j is
current, the current player is the player registered at position j (same
player id). -/
theorem turnOrder_roundRobin (s : GameState) (hc : s.crashed = false)
    (hb : ballMoving s = false) (hn : 0 < s.players.length) :
    (nextPlayerTurn s).currentPlayerIndex =
      (s.currentPlayerIndex + 1) % s.players.length ∧
    (∀ j, j < s.players.length →
      ∃! k, k < s.players.length ∧
        (nextPlayerTurn^[k + 1] s).currentPlayerIndex = j) ∧
    (∀ k j : Nat, ∀ p : PlayerScore,
      (nextPlayerTurn^[k] s).currentPlayerIndex = j →
      s.players[j]? = some p →
      ∃ p', getCurrentPlayer (nextPlayerTurn^[k] s) = some p' ∧ p'.pid = p.pid) := by
  refine ⟨(nextPlayerTurn_preserves s hc hb).2.2.2.1, ?_, ?_⟩
  · intro j hj
    obtain ⟨k0, hk0, huniq⟩ :=
      mod_cycle_unique s.players.length s.currentPlayerIndex j hn hj
    have hiter : ∀ k : Nat, (nextPlayerTurn^[k + 1] s).currentPlayerIndex =
        (s.currentPlayerIndex + (k + 1)) % s.players.length :=
      fun k => (nextPlayerTurn_iter s hc hb (k + 1)).2.2.2.2 (by omega)
    refine ⟨k0, ⟨hk0.1, by rw [hiter k0]; exact hk0.2⟩, ?_⟩
    intro y hy
    exact huniq y ⟨hy.1, by rw [← hiter y]; exact hy.2⟩
  · intro k j p hk hp
    obtain ⟨_, _, _, ipids, _⟩ := nextPlayerTurn_iter s hc hb k
    have h1 : ((nextPlayerTurn^[k] s).players[j]?).map (fun q : PlayerScore => q.pid) =
        some p.pid := by
      rw [ipids j, hp]
      rfl
    obtain ⟨p', hp', hpid⟩ := Option.map_eq_some'.1 h1
    refine ⟨p', ?_, hpid⟩
    unfold getCurrentPlayer
    rw [hk]
    exact hp'

/-- Witness for C2 on a concrete three-player roster with the ball absent
(hence at rest). -/
theorem turnOrder_roundRobin_witness :
    (rosterState.crashed = false ∧ ballMoving rosterState = false ∧
      0 < rosterState.players.length) ∧
    ((nextPlayerTurn rosterState).currentPlayerIndex =
      (rosterState.currentPlayerIndex + 1) % rosterState.players.length ∧
    (∀ j, j < rosterState.players.length →
      ∃! k, k < rosterState.players.length ∧
        (nextPlayerTurn^[k + 1] rosterState).currentPlayerIndex = j) ∧
    (∀ k j : Nat, ∀ p : PlayerScore,
      (nextPlayerTurn^[k] rosterState).currentPlayerIndex = j →
      rosterState.players[j]? = some p →
      ∃ p', getCurrentPlayer (nextPlayerTurn^[k] rosterState) = some p' ∧
        p'.pid = p.pid)) :=
  ⟨⟨rfl, rfl, by decide⟩, turnOrder_roundRobin rosterState rfl rfl (by decide)⟩

/-- C3.  Water-hazard penalty: when the ball enters the water with a current
player, a current hole and a spawned ball, exactly one penalty stroke is
added to the current players shot count, the ball is reset to the tee of the
current hole with zero linear and angular velocity, every other roster entry
is unchanged, and no recorded strokes or totals change for anyone. -/
theorem waterHazard_penalty (s : GameState) (cur : PlayerScore) (hole : GolfHole)
    (b : GolfBallEntity) (hc : s.crashed = false)
    (hcur : getCurrentPlayer s = some cur)
    (hhole : s.holes[s.currentHole]? = some hole)
    (hball : s.golfBall = some b) (hsp : b.isSpawned = true) :
    ((handleWaterHazard s).players[s.currentPlayerIndex]? =
      some { cur with golfEntity :=
        { cur.golfEntity with shotCount := cur.golfEntity.shotCount + 1 } }) ∧
    (∀ j : Nat, j ≠ s.currentPlayerIndex →
      (handleWaterHazard s).players[j]? = s.players[j]?) ∧
    (∀ p' ∈ (handleWaterHazard s).players, ∃ p ∈ s.players,
      p'.strokes = p.strokes ∧ p'.totalStrokes = p.totalStrokes) ∧
    (handleWaterHazard s).golfBall =
      some { b with position := hole.teePosition,
                    linearVelocity := Vec3.zero, angularVelocity := Vec3.zero } := by
  have hcur2 : s.players[s.currentPlayerIndex]? = some cur := hcur
  have hred : handleWaterHazard s = { penalizedState s with golfBall := s.golfBall.map (fun b2 => GolfBallEntity.resetToPosition b2 hole.teePosition) } := by
    unfold handleWaterHazard
    rw [hc, hcur, hhole]
    rfl
  rw [hred]
  refine ⟨?_, ?_, ?_, ?_⟩
  · show (penalizedState s).players[s.currentPlayerIndex]? = _
    unfold penalizedState
    rw [getElem?_mapIdxFrom, Nat.zero_add, hcur2]
    show some (penaltyF s.currentPlayerIndex s.currentPlayerIndex cur) = _
    unfold penaltyF
    rw [if_pos rfl]
  · intro j hj
    show (penalizedState s).players[j]? = s.players[j]?
    unfold penalizedState
    rw [getElem?_mapIdxFrom, Nat.zero_add]
    cases s.players[j]? with
    | none => rfl
    | some q => simp [penaltyF, hj]
  · intro p' hp'
    have hp2 : p' ∈ (penalizedState s).players := hp'
    unfold penalizedState at hp2
    refine forall_mem_mapIdxFrom
      (fun p' => ∃ p ∈ s.players, p'.strokes = p.strokes ∧ p'.totalStrokes = p.totalStrokes)
      (fun p => p ∈ s.players) _ 0 s.players ?_ (fun p hp => hp) p' hp2
    intro j p hm _
    exact ⟨p, hm, by unfold penaltyF; split_ifs <;> exact ⟨rfl, rfl⟩⟩
  · show s.golfBall.map (fun b2 => GolfBallEntity.resetToPosition b2 hole.teePosition) = _
    rw [hball]
    show some (GolfBallEntity.resetToPosition b hole.teePosition) = _
    unfold GolfBallEntity.resetToPosition GolfBallEntity.stopBall
    rw [hsp]
    rfl

/-- Witness for C3 on a concrete one-player state with a spawned moving ball
on hole 0 of the default course. -/
theorem waterHazard_penalty_witness :
    (waterState.crashed = false ∧ getCurrentPlayer waterState = some wPlayer ∧
      waterState.holes[waterState.currentHole]? = some hole1 ∧
      waterState.golfBall = some wBall ∧ wBall.isSpawned = true) ∧
    (((handleWaterHazard waterState).players[waterState.currentPlayerIndex]? =
      some { wPlayer with golfEntity :=
        { wPlayer.golfEntity with shotCount := wPlayer.golfEntity.shotCount + 1 } }) ∧
    (∀ j : Nat, j ≠ waterState.currentPlayerIndex →
      (handleWaterHazard waterState).players[j]? = waterState.players[j]?) ∧
    (∀ p' ∈ (handleWaterHazard waterState).players, ∃ p ∈ waterState.players,
      p'.strokes = p.strokes ∧ p'.totalStrokes = p.totalStrokes) ∧
    (handleWaterHazard waterState).golfBall =
      some { wBall with position := hole1.teePosition,
                        linearVelocity := Vec3.zero, angularVelocity := Vec3.zero }) :=
  ⟨⟨rfl, rfl, rfl, rfl, rfl⟩,
   waterHazard_penalty waterState wPlayer hole1 wBall rfl rfl rfl rfl rfl⟩

/-- C4, corrected.  The ordering part holds in every reachable manager state:
the live leaderboard and the final scores are both sorted ascending by total
strokes and the reported winner (the head of the final scores) has the fewest
total strokes of all registered players.  The total-equals-sum part holds only
under the single-delivery discipline (OrderlyReachable), in which the
ball-in-hole event fires at most once per hole completion: a second delivery
inside the three second result-display window re-adds the live shot count to
totalStrokes while overwriting the same per-hole strokes entry, so the
equality fails on the code as written (see the counterexample theorem
following the witness). -/
theorem scoring_consistency_and_order (s : GameState) :
    (Reachable s →
      List.Sorted rowLE (calculateCurrentLeaderboard s) ∧
      List.Sorted scoreLE (calculateFinalScores s) ∧
      (∀ w : PlayerScore, (calculateFinalScores s).head? = some w →
        ∀ q ∈ s.players, w.totalStrokes ≤ q.totalStrokes)) ∧
    (OrderlyReachable s → ∀ p ∈ s.players, p.totalStrokes = strokesSum p.strokes) :=
  ⟨fun _ => ⟨sorted_calculateCurrentLeaderboard s, sorted_calculateFinalScores s,
    fun w hw => head_calculateFinalScores_min s w hw⟩,
   fun h => (inv_orderlyReachable s h).1⟩

/-- Witness for C4 at the state in which one player joined and the game
started, reachable under both the full and the single-delivery relations. -/
theorem scoring_consistency_and_order_witness :
    (Reachable (startGame (addPlayer initialState "a")) ∧
      OrderlyReachable (startGame (addPlayer initialState "a"))) ∧
    (List.Sorted rowLE (calculateCurrentLeaderboard (startGame (addPlayer initialState "a"))) ∧
    List.Sorted scoreLE (calculateFinalScores (startGame (addPlayer initialState "a"))) ∧
    (∀ w : PlayerScore,
      (calculateFinalScores (startGame (addPlayer initialState "a"))).head? = some w →
      ∀ q ∈ (startGame (addPlayer initialState "a")).players,
        w.totalStrokes ≤ q.totalStrokes)) ∧
    (∀ p ∈ (startGame (addPlayer initialState "a")).players,
      p.totalStrokes = strokesSum p.strokes) := by
  have hreach : Reachable (startGame (addPlayer initialState "a")) :=
    Relation.ReflTransGen.tail
      (Relation.ReflTransGen.tail Relation.ReflTransGen.refl (Step.add initialState "a"))
      (Step.start (addPlayer initialState "a"))
  have horder : OrderlyReachable (startGame (addPlayer initialState "a")) :=
    Relation.ReflTransGen.tail
      (Relation.ReflTransGen.tail Relation.ReflTransGen.refl
        (OrderlyStep.add initialState "a"))
      (OrderlyStep.start (addPlayer initialState "a"))
  exact ⟨⟨hreach, horder⟩, (scoring_consistency_and_order _).1 hreach,
    (scoring_consistency_and_order _).2 horder⟩

/-- C4, counterexample to the claim as stated: a reachable in-game state of a
live process in which a registered players recorded total strokes differs
from the sum of the recorded per-hole strokes.  One player joins, the game
starts, the player charges for one tick and releases the shot (live shot
count 1), and the ball-in-hole collision event is then delivered twice before
the three second hole-start timer fires: the second delivery re-adds 1 to
totalStrokes (now 2) while overwriting the hole-0 strokes entry with the same
value 1. -/
theorem scoring_total_mismatch :
    Reachable doubleHoleState ∧
    doubleHoleState.crashed = false ∧
    doubleHoleState.gameInProgress = true ∧
    doubleHoleState.players.map
      (fun p : PlayerScore => (p.totalStrokes, strokesSum p.strokes)) = [(2, 1)] ∧
    ¬(∀ p ∈ doubleHoleState.players, p.totalStrokes = strokesSum p.strokes) := by
  refine ⟨?_, rfl, rfl, rfl, ?_⟩
  · exact Relation.ReflTransGen.tail (Relation.ReflTransGen.tail (Relation.ReflTransGen.tail (Relation.ReflTransGen.tail (Relation.ReflTransGen.tail (Relation.ReflTransGen.tail Relation.ReflTransGen.refl (Step.add initialState "a")) (Step.start (addPlayer initialState "a"))) (Step.tick (startGame (addPlayer initialState "a")) 0 chargeInput)) (Step.tick (playerTick (startGame (addPlayer initialState "a")) 0 chargeInput) 0 releaseInput)) (Step.holeRecord (playerTick (playerTick (startGame (addPlayer initialState "a")) 0 chargeInput) 0 releaseInput))) (Step.holeRecord (handleBallInHoleRecord (playerTick (playerTick (startGame (addPlayer initialState "a")) 0 chargeInput) 0 releaseInput)))
  · intro hall
    have h1 : doubleHoleState.players.map
        (fun p : PlayerScore => (p.totalStrokes, strokesSum p.strokes)) = [(2, 1)] := rfl
    cases hm : doubleHoleState.players with
    | nil =>
      rw [hm] at h1
      simp at h1
    | cons p rest =>
      have hp : p ∈ doubleHoleState.players := by
        rw [hm]
        exact List.mem_cons_self p rest
      have heq := hall p hp
      rw [hm] at h1
      simp only [List.map_cons] at h1
      injection h1 with hhead htail
      injection hhead with ha hb
      omega

/-- C5.  Power-charge invariant: in every reachable manager state every
registered entity keeps 0 <= currentPower <= maxPower; while charging,
updatePower adds maxPower / 120 and clamps at maxPower; and the power is
reset to 0 by startCharging, by endTurn, and by a successfully executed
shot. -/
theorem powerCharge_invariant (s : GameState) (h : Reachable s) :
    (∀ p ∈ s.players, 0 ≤ p.golfEntity.currentPower ∧
      p.golfEntity.currentPower ≤ p.golfEntity.maxPower) ∧
    (∀ e : GolfPlayerEntity, e.isCharging = true →
      (GolfPlayerEntity.updatePower e).currentPower =
        min (e.currentPower + e.maxPower / 120) e.maxPower) ∧
    (∀ e : GolfPlayerEntity, (GolfPlayerEntity.startCharging e).currentPower = 0) ∧
    (∀ e : GolfPlayerEntity, (GolfPlayerEntity.endTurn e).currentPower = 0) ∧
    (∀ e : GolfPlayerEntity, ∀ facing : Vec3, e.isCharging = true → e.hasBall = true →
      e.hasWorld = true →
      ((GolfPlayerEntity.executeShot facing e).1).currentPower = 0) := by
  refine ⟨fun p hp => (safeInv_reachable s h).2 p hp,
    GolfPlayerEntity.updatePower_spec, fun e => rfl, fun e => rfl, ?_⟩
  intro e facing hc2 hb2 hw2
  rw [GolfPlayerEntity.executeShot_success facing e hc2 hb2 hw2]

/-- Witness for C5 at the same reachable one-player in-game state. -/
theorem powerCharge_invariant_witness :
    Reachable (startGame (addPlayer initialState "a")) ∧
    ((∀ p ∈ (startGame (addPlayer initialState "a")).players,
      0 ≤ p.golfEntity.currentPower ∧
      p.golfEntity.currentPower ≤ p.golfEntity.maxPower) ∧
    (∀ e : GolfPlayerEntity, e.isCharging = true →
      (GolfPlayerEntity.updatePower e).currentPower =
        min (e.currentPower + e.maxPower / 120) e.maxPower) ∧
    (∀ e : GolfPlayerEntity, (GolfPlayerEntity.startCharging e).currentPower = 0) ∧
    (∀ e : GolfPlayerEntity, (GolfPlayerEntity.endTurn e).currentPower = 0) ∧
    (∀ e : GolfPlayerEntity, ∀ facing : Vec3, e.isCharging = true → e.hasBall = true →
      e.hasWorld = true →
      ((GolfPlayerEntity.executeShot facing e).1).currentPower = 0)) := by
  have hreach : Reachable (startGame (addPlayer initialState "a")) :=
    Relation.ReflTransGen.tail
      (Relation.ReflTransGen.tail Relation.ReflTransGen.refl (Step.add initialState "a"))
      (Step.start (addPlayer initialState "a"))
  exact ⟨hreach, powerCharge_invariant _ hreach⟩

/-- C6.  Shot execution: releasing space while charging, with a ball, a world
and during the players turn, emits exactly one hit of the ball in the camera
facing direction with force (currentPower / maxPower) * 50, which never
exceeds 50; the shot count rises by exactly one and charging ends.  When the
player has no turn, is not charging, or has no ball, no shot is emitted and
the shot count is unchanged. -/
theorem shotExecution (e : GolfPlayerEntity) (inp : Input)
    (ht : e.isPlayerTurn = true) (hch : e.isCharging = true) (hb : e.hasBall = true)
    (hw : e.hasWorld = true) (hsp : inp.sp = false)
    (hp0 : 0 ≤ e.currentPower) (hpm : e.currentPower ≤ e.maxPower)
    (hmp : 0 < e.maxPower) :
    (GolfPlayerEntity.golfControlsTick inp e).2 =
      some (inp.facing, e.currentPower / e.maxPower * 50) ∧
    e.currentPower / e.maxPower * 50 ≤ 50 ∧
    ((GolfPlayerEntity.golfControlsTick inp e).1).shotCount = e.shotCount + 1 ∧
    ((GolfPlayerEntity.golfControlsTick inp e).1).isCharging = false ∧
    (∀ e2 : GolfPlayerEntity, ∀ inp2 : Input,
      e2.isPlayerTurn = false ∨ e2.isCharging = false ∨ e2.hasBall = false →
      (GolfPlayerEntity.golfControlsTick inp2 e2).2 = none ∧
      ((GolfPlayerEntity.golfControlsTick inp2 e2).1).shotCount = e2.shotCount) := by
  have hexec := GolfPlayerEntity.executeShot_success inp.facing e hch hb hw
  have htick : GolfPlayerEntity.golfControlsTick inp e =
      (GolfPlayerEntity.tickRest inp (GolfPlayerEntity.executeShot inp.facing e).1,
       (GolfPlayerEntity.executeShot inp.facing e).2) := by
    unfold GolfPlayerEntity.golfControlsTick
    rw [ht, hsp, hch]
    rfl
  refine ⟨?_, ?_, ?_, ?_, ?_⟩
  · rw [htick, hexec]
  · calc e.currentPower / e.maxPower * 50 ≤ 1 * 50 :=
        mul_le_mul_of_nonneg_right ((div_le_one hmp).2 hpm) (by norm_num)
      _ = 50 := by norm_num
  · rw [htick]
    show (GolfPlayerEntity.tickRest inp (GolfPlayerEntity.executeShot inp.facing e).1).shotCount
      = e.shotCount + 1
    rw [GolfPlayerEntity.tickRest_shotCount, hexec]
  · rw [htick]
    show (GolfPlayerEntity.tickRest inp (GolfPlayerEntity.executeShot inp.facing e).1).isCharging
      = false
    rw [GolfPlayerEntity.tickRest_isCharging, hexec]
  · intro e2 inp2 hdis
    unfold GolfPlayerEntity.golfControlsTick
    split_ifs with a1 a2 a3
    · exact ⟨rfl, rfl⟩
    · exact ⟨rfl, by rw [GolfPlayerEntity.tickRest_shotCount]; rfl⟩
    · have ht2 : e2.isPlayerTurn = true := by
        simp only [Bool.not_eq_true'] at a1
        simpa using a1
      have hc2 : e2.isCharging = true := by
        simp only [Bool.and_eq_true, Bool.not_eq_true'] at a3
        exact a3.2
      have hbf : e2.hasBall = false := by
        rcases hdis with hd | hd | hd
        · rw [ht2] at hd; exact absurd hd (by simp)
        · rw [hc2] at hd; exact absurd hd (by simp)
        · exact hd
      have hnoop := GolfPlayerEntity.executeShot_noop inp2.facing e2 (Or.inr (Or.inl hbf))
      rw [hnoop]
      exact ⟨rfl, by rw [GolfPlayerEntity.tickRest_shotCount]⟩
    · exact ⟨rfl, by rw [GolfPlayerEntity.tickRest_shotCount]⟩

/-- Witness for C6 on a concrete charged entity releasing the space key. -/
theorem shotExecution_witness :
    (chargedEnt.isPlayerTurn = true ∧ chargedEnt.isCharging = true ∧
      chargedEnt.hasBall = true ∧ chargedEnt.hasWorld = true ∧
      releaseInput.sp = false ∧ 0 ≤ chargedEnt.currentPower ∧
      chargedEnt.currentPower ≤ chargedEnt.maxPower ∧ 0 < chargedEnt.maxPower) ∧
    ((GolfPlayerEntity.golfControlsTick releaseInput chargedEnt).2 =
      some (releaseInput.facing, chargedEnt.currentPower / chargedEnt.maxPower * 50) ∧
    chargedEnt.currentPower / chargedEnt.maxPower * 50 ≤ 50 ∧
    ((GolfPlayerEntity.golfControlsTick releaseInput chargedEnt).1).shotCount =
      chargedEnt.shotCount + 1 ∧
    ((GolfPlayerEntity.golfControlsTick releaseInput chargedEnt).1).isCharging = false ∧
    (∀ e2 : GolfPlayerEntity, ∀ inp2 : Input,
      e2.isPlayerTurn = false ∨ e2.isCharging = false ∨ e2.hasBall = false →
      (GolfPlayerEntity.golfControlsTick inp2 e2).2 = none ∧
      ((GolfPlayerEntity.golfControlsTick inp2 e2).1).shotCount = e2.shotCount)) := by
  refine ⟨⟨rfl, rfl, rfl, rfl, rfl, ?_, ?_, ?_⟩,
    shotExecution chargedEnt releaseInput rfl rfl rfl rfl rfl ?_ ?_ ?_⟩ <;>
  norm_num [chargedEnt, GolfPlayerEntity.freshPlayer]

/-- C9.  Single-active-turn invariant: in every reachable manager state at
most one registered player entity has an active turn; starting a players turn
leaves every non-current entry with its turn ended; and endGame (alive, game
in progress) ends the turn of the entry at the current index. -/
theorem singleActiveTurn (s : GameState) (h : Reachable s) :
    activeTurnCount s ≤ 1 ∧
    (∀ cur : PlayerScore, getCurrentPlayer s = some cur →
      ∀ j : Nat, j ≠ s.currentPlayerIndex →
        ∀ p', (startPlayerTurn s).players[j]? = some p' →
          p'.golfEntity.isPlayerTurn = false) ∧
    (s.crashed = false → s.gameInProgress = true →
      ∀ p, s.players[s.currentPlayerIndex]? = some p →
        ∃ p', (endGame s).players[s.currentPlayerIndex]? = some p' ∧
          p'.golfEntity.isPlayerTurn = false) := by
  refine ⟨(safeInv_reachable s h).1, ?_, ?_⟩
  · intro cur hcur j hj p' hp'
    have hcur2 : s.players[s.currentPlayerIndex]? = some cur := hcur
    unfold startPlayerTurn at hp'
    rw [hcur2] at hp'
    have hp2 : (mapIdxFrom (startPlayerTurnF s.currentPlayerIndex s.golfBall.isSome)
        0 s.players)[j]? = some p' := hp'
    rw [getElem?_mapIdxFrom, Nat.zero_add] at hp2
    cases hq : s.players[j]? with
    | none =>
      rw [hq] at hp2
      simp at hp2
    | some q =>
      rw [hq] at hp2
      simp only [Option.map_some'] at hp2
      have hfq : startPlayerTurnF s.currentPlayerIndex s.golfBall.isSome j q = p' :=
        Option.some.inj hp2
      rw [← hfq]
      unfold startPlayerTurnF
      rw [if_neg hj]
      rfl
  · intro hc2 hg2 p hp
    have hplayers : (endedState s).players[s.currentPlayerIndex]? =
        some { p with golfEntity := GolfPlayerEntity.endTurn p.golfEntity } := by
      unfold endedState
      rw [hp]
      show (mapIdxFrom (endTurnAtF s.currentPlayerIndex) 0 s.players)[s.currentPlayerIndex]?
        = _
      rw [getElem?_mapIdxFrom, Nat.zero_add, hp]
      show some (endTurnAtF s.currentPlayerIndex s.currentPlayerIndex p) = _
      unfold endTurnAtF
      rw [if_pos rfl]
    unfold endGame
    rw [hc2, hg2]
    cases hh : (calculateFinalScores (endedState s)).head? with
    | none => exact ⟨_, hplayers, rfl⟩
    | some w => exact ⟨_, hplayers, rfl⟩

/-- Witness for C9 at the freshly constructed manager state. -/
theorem singleActiveTurn_witness :
    Reachable initialState ∧
    (activeTurnCount initialState ≤ 1 ∧
    (∀ cur : PlayerScore, getCurrentPlayer initialState = some cur →
      ∀ j : Nat, j ≠ initialState.currentPlayerIndex →
        ∀ p', (startPlayerTurn initialState).players[j]? = some p' →
          p'.golfEntity.isPlayerTurn = false) ∧
    (initialState.crashed = false → initialState.gameInProgress = true →
      ∀ p, initialState.players[initialState.currentPlayerIndex]? = some p →
        ∃ p', (endGame initialState).players[initialState.currentPlayerIndex]? = some p' ∧
          p'.golfEntity.isPlayerTurn = false)) :=
  ⟨Relation.ReflTransGen.refl, singleActiveTurn initialState Relation.ReflTransGen.refl⟩

/-- C10.  Shot-count reset on turn start: startTurn zeroes the entitys shot
count; after a turn start, the live shot count equals the number of hit
commands emitted plus the number of water penalties since that turn start,
independent of any earlier strokes; and when the ball enters the hole the
recorded per-hole score is exactly that live shot count of the current
player. -/
theorem shotCountReset (e : GolfPlayerEntity) (s : GameState) (cur : PlayerScore)
    (hc : s.crashed = false) (hg : s.gameInProgress = true)
    (hcur : getCurrentPlayer s = some cur) :
    (GolfPlayerEntity.startTurn e).shotCount = 0 ∧
    (∀ evs : List TurnEvent,
      ((runTurnEvents (GolfPlayerEntity.startTurn e) evs).1).shotCount =
        (runTurnEvents (GolfPlayerEntity.startTurn e) evs).2 + countPenalties evs) ∧
    (∃ p', (handleBallInHole s).players[s.currentPlayerIndex]? = some p' ∧
      getStroke p'.strokes s.currentHole =
        some (GolfPlayerEntity.getScore cur.golfEntity)) := by
  refine ⟨GolfPlayerEntity.startTurn_shotCount e, ?_, ?_⟩
  · intro evs
    rw [runTurnEvents_shotCount evs (GolfPlayerEntity.startTurn e),
      GolfPlayerEntity.startTurn_shotCount]
    omega
  · have hcur2 : s.players[s.currentPlayerIndex]? = some cur := hcur
    have hrecorded : (recordedState s cur).players[s.currentPlayerIndex]? =
        some (recordScoreF s.currentPlayerIndex s.currentHole
          (GolfPlayerEntity.getScore cur.golfEntity) s.currentPlayerIndex cur) := by
      unfold recordedState
      rw [getElem?_mapIdxFrom, Nat.zero_add, hcur2]
      rfl
    have hstroke : getStroke (recordScoreF s.currentPlayerIndex s.currentHole
        (GolfPlayerEntity.getScore cur.golfEntity) s.currentPlayerIndex cur).strokes
        s.currentHole = some (GolfPlayerEntity.getScore cur.golfEntity) := by
      unfold recordScoreF
      rw [if_pos rfl]
      show getStroke (setStroke cur.strokes s.currentHole
        (GolfPlayerEntity.getScore cur.golfEntity)) s.currentHole = _
      rw [getStroke_setStroke, if_pos rfl]
    unfold handleBallInHole
    rw [hc, hg, hcur]
    cases hh : s.holes[s.currentHole]? with
    | none => exact ⟨_, hrecorded, hstroke⟩
    | some hole2 =>
      have hmap := startHole_strokes (recordedState s cur) (s.currentHole + 1)
        s.currentPlayerIndex
      rw [hrecorded] at hmap
      simp only [Option.map_some'] at hmap
      obtain ⟨p', hp', hps⟩ := Option.map_eq_some'.1 hmap
      refine ⟨p', hp', ?_⟩
      rw [hps]
      exact hstroke

/-- Witness for C10 on the concrete one-player in-game state on hole 0. -/
theorem shotCountReset_witness :
    (waterState.crashed = false ∧ waterState.gameInProgress = true ∧
      getCurrentPlayer waterState = some wPlayer) ∧
    ((GolfPlayerEntity.startTurn GolfPlayerEntity.freshPlayer).shotCount = 0 ∧
    (∀ evs : List TurnEvent,
      ((runTurnEvents (GolfPlayerEntity.startTurn GolfPlayerEntity.freshPlayer) evs).1).shotCount =
        (runTurnEvents (GolfPlayerEntity.startTurn GolfPlayerEntity.freshPlayer) evs).2 +
          countPenalties evs) ∧
    (∃ p', (handleBallInHole waterState).players[waterState.currentPlayerIndex]? = some p' ∧
      getStroke p'.strokes waterState.currentHole =
        some (GolfPlayerEntity.getScore wPlayer.golfEntity))) :=
  ⟨⟨rfl, rfl, rfl⟩,
   shotCountReset GolfPlayerEntity.freshPlayer waterState wPlayer rfl rfl rfl⟩

end GolfGameManager
